import Mathlib

/-!
# HC08RTOS: the round-robin scheduler kernel for the HCS08

A shallow embedding of `rtos.c`, `rtos_priority.c` and `rtos_rti.c`.

* Addresses are 16-bit: a pointer is a `Nat` below `65536` and pointer
  arithmetic is reduced modulo `65536`.
* `signed char`, `unsigned char`, `int` and `unsigned int` are 8, 8, 16 and 16
  bits wide; every conversion is written out (`toSChar`, `toUChar`, `toInt16`,
  `toUInt16`).
* RAM is a function from addresses to bytes; the kernel tables `TASKS`,
  `STACKS`, `STACK_POINTERS` (and `TIMES`) are lists, the function statics are
  fields of the machine state.
* An array access outside its table is undefined behaviour in C: the embedded
  function then returns `none`.
* The inline assembly is embedded instruction by instruction, with the
  semantics of the HCS08 reference manual: the stack pointer addresses the next
  free byte, a push stores at `SP` and decrements, a pull increments and loads,
  `tsx` loads `H:X` with `SP + 1` and `txs` loads `SP` with `H:X - 1`.
-/

namespace HC08RTOS

/-! ## Machine integers -/

/-- Conversion of an `int` value to `signed char` (8 bits, wrapping). -/
def toSChar (x : Int) : Int := (x + 128) % 256 - 128

/-- Conversion of an `int` value to `unsigned char`. -/
def toUChar (x : Int) : Nat := (x % 256).toNat

/-- Conversion of an `int` value to `unsigned int` (16 bits), as the usual
arithmetic conversions do when an `int` meets a `size_t`. -/
def toUInt16 (x : Int) : Nat := (x % 65536).toNat

/-- The cast `(int)p` of a 16-bit pointer: addresses from `0x8000` on are negative. -/
def toInt16 (p : Nat) : Int :=
  if p % 65536 < 32768 then ((p % 65536 : Nat) : Int) else ((p % 65536 : Nat) : Int) - 65536

/-- Pointer plus `int` offset, in the 16-bit address space. -/
def ptrAdd (p : Nat) (d : Int) : Nat := (((p : Int) + d) % 65536).toNat

/-- Read `xs[i]` for a signed index; `none` when the access is out of bounds. -/
def readAt (xs : List Nat) (i : Int) : Option Nat :=
  if 0 ≤ i then xs[i.toNat]? else none

/-- Store `xs[i] = v` for a signed index; `none` when the access is out of bounds. -/
def writeAt (xs : List Nat) (i : Int) (v : Nat) : Option (List Nat) :=
  if 0 ≤ i ∧ i.toNat < xs.length then some (xs.set i.toNat v) else none

/-- Store one byte in RAM. -/
def store (mem : Nat → Nat) (a v : Nat) : Nat → Nat :=
  fun b => if b = a then v else mem b

/-! ## Machine state -/

/-- The state the three programs act on: the CPU registers, RAM, the timer
registers they touch, the kernel tables and the function statics.
`spStores` is a ghost trace: the stores the scheduler core has made to
`STACK_POINTERS`, oldest first, as (index, value) pairs. -/
structure Machine where
  A : Nat
  H : Nat
  X : Nat
  SP : Nat
  PC : Nat
  CCR : Nat
  mem : Nat → Nat
  TPM1SC : Nat
  TPM1C0SC : Nat
  TPM1C0V : Nat
  SRTISC : Nat
  TASKS : List Nat
  STACKS : List Nat
  STACK_POINTERS : List Nat
  TIMES : List Nat
  f : Nat
  current_task : Int
  next_task : Int
  _pCurTask : Nat
  _pNexTask : Nat
  spStores : List (Nat × Nat)

/-! ## HCS08 instructions used by the kernel -/

/-- Instruction `tsx`: `H:X := SP + 1`. -/
def tsx (m : Machine) : Machine :=
  { m with H := (m.SP + 1) % 65536 / 256, X := (m.SP + 1) % 65536 % 256 }

/-- Instruction `txs`: `SP := H:X - 1`. -/
def txs (m : Machine) : Machine :=
  { m with SP := (m.H * 256 + m.X + 65535) % 65536 }

/-- The 16-bit value of `H:X`, which `sthx` stores. -/
def hx (m : Machine) : Nat := m.H * 256 + m.X

/-- Instruction `ldhx`: load `H:X` with a 16-bit value. -/
def ldhx (m : Machine) (v : Nat) : Machine :=
  { m with H := v / 256 % 256, X := v % 256 }

/-- Instruction `pulh`: `SP := SP + 1`, then `H` is loaded from the byte at `SP`. -/
def pulh (m : Machine) : Machine :=
  { m with SP := (m.SP + 1) % 65536, H := m.mem ((m.SP + 1) % 65536) }

/-- Instruction `rti`: pulls `CCR`, `A`, `X`, `PCH`, `PCL`, in this order, from
ascending addresses. -/
def rti (m : Machine) : Machine :=
  { m with
    CCR := m.mem ((m.SP + 1) % 65536)
    A := m.mem ((m.SP + 2) % 65536)
    X := m.mem ((m.SP + 3) % 65536)
    PC := m.mem ((m.SP + 4) % 65536) * 256 + m.mem ((m.SP + 5) % 65536)
    SP := (m.SP + 5) % 65536 }

/-! ## `RegisterFunction` (the same text in the three files) -/

/-- `RegisterFunction(i, stack_size)`, `rtos.c` lines 82-89: writes the entry
address of task `i` in the two top bytes of its stack and sets its saved stack
pointer. `i` is an `unsigned char`, `stack_size` an `int`. -/
def RegisterFunction (m : Machine) (i : Nat) (stack_size : Int) : Option Machine :=
  match m.TASKS[i]?, m.STACKS[i]? with
  | some entry, some base =>
    if i < m.STACK_POINTERS.length then
      let m1 := { m with f := entry }
      let m2 := { m1 with
        mem := store m1.mem (ptrAdd base (stack_size - 2)) (toUChar (toInt16 m1.f >>> (8 : Nat))) }
      let m3 := { m2 with
        mem := store m2.mem (ptrAdd base (stack_size - 1)) (toUChar (toInt16 m2.f) &&& 0xff) }
      some { m3 with
        STACK_POINTERS := m3.STACK_POINTERS.set i (ptrAdd base (stack_size - 1 - 5)) }
    else none
  | _, _ => none

/-! ## `rtos.c`: fixed-tick round robin -/

namespace Rtos

/-- `main` of `rtos.c` up to `EnableInterrupts`: registers the two tasks with
`sizeof(task1_stack) = 30` and `sizeof(task2_stack) = 20`, starts timer 1 and
clears the interrupt mask (bit 3 of `CCR`). -/
def main (m : Machine) : Option Machine :=
  match RegisterFunction m 0 30 with
  | none => none
  | some m1 =>
    match RegisterFunction m1 1 20 with
    | none => none
    | some m2 => some { m2 with TPM1SC := 0x4A, CCR := m2.CCR &&& 0xF7 }

/-- `TimerISR` of `rtos.c`, lines 98-119. -/
def TimerISR (m : Machine) : Option Machine :=
  let m1 := { m with TPM1SC := (m.TPM1SC &&& 0xFF7F) % 256 }
  let m2 := { m1 with next_task := toSChar (m1.current_task + 1) }
  let m3 := if toUInt16 m2.next_task ≥ m2.TASKS.length then { m2 with next_task := 0 } else m2
  match readAt m3.STACK_POINTERS m3.next_task with
  | none => none
  | some p =>
    let m4 := { m3 with _pNexTask := p }
    let m5 := tsx m4
    let m6 := { m5 with _pCurTask := hx m5 }
    let m7 := txs (ldhx m6 m6._pNexTask)
    if m7.current_task ≠ -1 then
      match writeAt m7.STACK_POINTERS m7.current_task m7._pCurTask with
      | none => none
      | some t =>
        some { m7 with
          STACK_POINTERS := t
          spStores := m7.spStores ++ [(m7.current_task.toNat, m7._pCurTask)]
          current_task := m7.next_task }
    else some { m7 with current_task := m7.next_task }

end Rtos

/-! ## `rtos_priority.c`: weighted round robin -/

namespace RtosPriority

/-- `ScheduleNext` of `rtos_priority.c`, lines 80-100. -/
def ScheduleNext (m : Machine) : Option Machine :=
  let m2 := { m with next_task := toSChar (m.current_task + 1) }
  let m3 := if toUInt16 m2.next_task ≥ m2.TASKS.length then { m2 with next_task := 0 } else m2
  match readAt m3.TIMES m3.next_task with
  | none => none
  | some q =>
    let m3t := { m3 with TPM1C0V := (m3.TPM1C0V + q) % 65536 }
    match readAt m3t.STACK_POINTERS m3t.next_task with
    | none => none
    | some p =>
      let m4 := { m3t with _pNexTask := p }
      let m5 := tsx m4
      let m6 := { m5 with _pCurTask := hx m5 }
      let m7 := txs (ldhx m6 m6._pNexTask)
      if m7.current_task ≠ -1 then
        match writeAt m7.STACK_POINTERS m7.current_task m7._pCurTask with
        | none => none
        | some t =>
          some { m7 with
            STACK_POINTERS := t
            spStores := m7.spStores ++ [(m7.current_task.toNat, m7._pCurTask)]
            current_task := m7.next_task }
      else some { m7 with current_task := m7.next_task }

/-- `TimerISR` of `rtos_priority.c`, lines 119-123. -/
def TimerISR (m : Machine) : Option Machine :=
  ScheduleNext { m with TPM1C0SC := (m.TPM1C0SC &&& 0xFF7F) % 256 }

end RtosPriority

/-! ## `rtos_rti.c`: low-power real-time interrupt -/

namespace RtosRti

/-- `ScheduleNext` of `rtos_rti.c`, lines 100-118. -/
def ScheduleNext (m : Machine) : Option Machine :=
  let m2 := { m with next_task := toSChar (m.current_task + 1) }
  let m3 := if toUInt16 m2.next_task ≥ m2.TASKS.length then { m2 with next_task := 0 } else m2
  match readAt m3.STACK_POINTERS m3.next_task with
  | none => none
  | some p =>
    let m4 := { m3 with _pNexTask := p }
    let m5 := tsx m4
    let m6 := { m5 with _pCurTask := hx m5 }
    let m7 := txs (ldhx m6 m6._pNexTask)
    if m7.current_task ≠ -1 then
      match writeAt m7.STACK_POINTERS m7.current_task m7._pCurTask with
      | none => none
      | some t =>
        some { m7 with
          STACK_POINTERS := t
          spStores := m7.spStores ++ [(m7.current_task.toNat, m7._pCurTask)]
          current_task := m7.next_task }
    else some { m7 with current_task := m7.next_task }

/-- `RTI_ISR` of `rtos_rti.c`, lines 137-141. -/
def RTI_ISR (m : Machine) : Option Machine :=
  ScheduleNext { m with SRTISC := (m.SRTISC ||| 0x40) % 256 }

end RtosRti

/-! ## Runs of switches -/

/-- The three timing variants. -/
inductive Variant where
  | fixedTick
  | weighted
  | lowPower
deriving DecidableEq

/-- One scheduler switch of a variant: `TimerISR` of `rtos.c`, `ScheduleNext`
of `rtos_priority.c`, `ScheduleNext` of `rtos_rti.c`. -/
def switch : Variant → Machine → Option Machine
  | .fixedTick => Rtos.TimerISR
  | .weighted => RtosPriority.ScheduleNext
  | .lowPower => RtosRti.ScheduleNext

/-- A run of switches. Between two switches the running task moves the
hardware stack pointer; `sps` lists the stack pointer in effect on entry to
each switch. -/
def run (v : Variant) : Machine → List Nat → Option Machine
  | m, [] => some m
  | m, sp :: sps =>
    match switch v { m with SP := sp } with
    | none => none
    | some m1 => run v m1 sps


/-! ## Auxiliary definitions for the statements -/

/-- The task index the selection code of a switch picks: `current_task + 1`
converted to `signed char`, or `0` when that is not below the task count `N`
in the unsigned comparison. -/
def nextIndex (N : Nat) (cur : Int) : Int :=
  if toUInt16 (toSChar (cur + 1)) ≥ N then 0 else toSChar (cur + 1)

/-- Well-formed kernel tables: between 1 and 32767 tasks (`sizeof(TASKS)` is a
16-bit `size_t`), tables of equal length, and `current_task` the sentinel or
a task index. -/
def TableOK (v : Variant) (m : Machine) : Prop :=
  1 ≤ m.TASKS.length ∧ m.TASKS.length ≤ 32767 ∧
  m.STACK_POINTERS.length = m.TASKS.length ∧
  (v = Variant.weighted → m.TIMES.length = m.TASKS.length) ∧
  -1 ≤ m.current_task ∧ m.current_task < m.TASKS.length

instance (v : Variant) (m : Machine) : Decidable (TableOK v m) := by
  unfold TableOK; infer_instance

/-- What one switch does to the scheduler-visible state. -/
structure SwitchRel (m m1 : Machine) : Prop where
  cur_eq : m1.current_task = nextIndex m.TASKS.length m.current_task
  sp_eq : ∃ p, readAt m.STACK_POINTERS m1.current_task = some p ∧
    m1.SP = (p % 65536 + 65535) % 65536
  table_eq : m1.STACK_POINTERS =
    if m.current_task = -1 then m.STACK_POINTERS
    else m.STACK_POINTERS.set m.current_task.toNat ((m.SP + 1) % 65536)
  stores_eq : m1.spStores =
    if m.current_task = -1 then m.spStores
    else m.spStores ++ [(m.current_task.toNat, (m.SP + 1) % 65536)]
  tasks_eq : m1.TASKS = m.TASKS
  stacks_eq : m1.STACKS = m.STACKS
  times_eq : m1.TIMES = m.TIMES
  mem_eq : m1.mem = m.mem

/-- The values `current_task` takes after each switch of a run, in order. -/
def visited (v : Variant) : Machine → List Nat → List Int
  | _, [] => []
  | m, sp :: sps =>
    match switch v { m with SP := sp } with
    | none => []
    | some m1 => m1.current_task :: visited v m1 sps

/-- The machine at reset with the given tables: registers and RAM cleared, the
stack pointer at its reset value `0x00FF`, `STACK_POINTERS` initialised to the
stack bases as the sources do, and `current_task = -1`. -/
def boot (entries bases quanta : List Nat) : Machine :=
  { A := 0, H := 0, X := 0, SP := 0x00FF, PC := 0, CCR := 0x68, mem := fun _ => 0,
    TPM1SC := 0, TPM1C0SC := 0, TPM1C0V := 0, SRTISC := 0,
    TASKS := entries, STACKS := bases, STACK_POINTERS := bases, TIMES := quanta,
    f := 0, current_task := -1, next_task := 0, _pCurTask := 0, _pNexTask := 0,
    spStores := [] }

/-- The reference program of `rtos.c` and `rtos_priority.c`: two tasks, linked
at `0x8000` and `0x8040`, with stacks of 30 and 20 bytes at `0x0100` and
`0x011E`, and the quanta 200 and 1000. -/
def refMachine : Machine := boot [0x8000, 0x8040] [0x0100, 0x011E] [200, 1000]

/-- A table of 129 tasks, each with a six-byte stack. -/
def table129 : Machine :=
  boot ((List.range 129).map (fun i => 0x8000 + 4 * i))
    ((List.range 129).map (fun i => 0x0100 + 6 * i))
    (List.replicate 129 200)

/-- The hardware stack pointer in effect when task `i` was last switched out
during the run `sps` from `m`: the entry stack pointer of the last switch of
the run whose outgoing task was `i`; `none` if no switch of the run switched
`i` out. -/
def lastOut (v : Variant) (i : Int) : Machine → List Nat → Option Nat
  | _, [] => none
  | m, sp :: sps =>
    match switch v { m with SP := sp } with
    | none => none
    | some m1 =>
      match lastOut v i m1 sps with
      | some s => some s
      | none => if m.current_task = i then some sp else none

/-- The number of stores the scheduler core has made to `STACK_POINTERS[i]`. -/
def storesTo (m : Machine) (i : Nat) : Nat :=
  (m.spStores.filter (fun e => e.1 = i)).length

/-- The reference program after `main` of `rtos.c`: both tasks registered. -/
def refRegistered : Machine := (Rtos.main refMachine).getD refMachine

/-- A table with the single task of the reference program. -/
def singleTask : Machine := boot [0x8000] [0x0100] [200]

/-- The reference program at its second timer interrupt: task 0 is running
and the interrupt entry has left `SP = 0x0117`. -/
def refRunning : Machine :=
  { (run Variant.fixedTick refRegistered [0x00F9]).getD refRegistered with SP := 0x0117 }

/-! ## The voluntary yield and the interrupt entry -/

/-- Push one byte: it is stored at `SP`, then `SP` is decremented. -/
def push (m : Machine) (b : Nat) : Machine :=
  { m with mem := store m.mem m.SP b, SP := (m.SP + 65535) % 65536 }

/-- Instruction `pshx`. -/
def pshx (m : Machine) : Machine := push m m.X

/-- Instruction `psha`. -/
def psha (m : Machine) : Machine := push m m.A

/-- Instruction `pshh`. -/
def pshh (m : Machine) : Machine := push m m.H

/-- Instruction `tpa`: `A := CCR`. -/
def tpa (m : Machine) : Machine := { m with A := m.CCR }

/-- The stack effect of the `jsr` of a call: the return address `ret` is
pushed, low byte first. -/
def jsr (m : Machine) (ret : Nat) : Machine :=
  push (push m (ret % 256)) (ret / 256 % 256)

/-- Interrupt entry, done by the hardware: `PCL`, `PCH`, `X`, `A`, `CCR` are
pushed in this order and the interrupt mask (bit 3 of `CCR`) is set. `H` is not
stacked by the hardware; the handler pushes it with `pshh`. -/
def interruptEntry (m : Machine) : Machine :=
  { push (push (push (push (push m (m.PC % 256)) (m.PC / 256 % 256)) m.X) m.A) m.CCR with
    CCR := m.CCR ||| 0x08 }

namespace RtosPriority

/-- `main` of `rtos_priority.c` up to `EnableInterrupts`. -/
def main (m : Machine) : Option Machine :=
  match RegisterFunction m 0 30 with
  | none => none
  | some m1 =>
    match RegisterFunction m1 1 20 with
    | none => none
    | some m2 => some { m2 with TPM1SC := 0x0A, TPM1C0SC := 0x50, CCR := m2.CCR &&& 0xF7 }

/-- The frame synthesis of `WaitNext`, `rtos_priority.c` lines 105-111:
`pshx`, `psha`, `tpa`, `psha`, `pshh`. -/
def yieldFrame (m : Machine) : Machine := pshh (psha (tpa (psha (pshx m))))

/-- `WaitNext` of `rtos_priority.c`, lines 104-117, entered after the `jsr` of
the call. -/
def WaitNext (m : Machine) : Option Machine :=
  match ScheduleNext (yieldFrame m) with
  | none => none
  | some m2 => some (rti (pulh m2))

end RtosPriority

namespace RtosRti

/-- The frame synthesis of `WaitNext`, `rtos_rti.c` lines 123-129:
`pshx`, `psha`, `tpa`, `psha`, `pshh`. -/
def yieldFrame (m : Machine) : Machine := pshh (psha (tpa (psha (pshx m))))

/-- `WaitNext` of `rtos_rti.c`, lines 122-135, entered after the `jsr` of the
call. -/
def WaitNext (m : Machine) : Option Machine :=
  match ScheduleNext (yieldFrame m) with
  | none => none
  | some m2 => some (rti (pulh m2))

end RtosRti

/-! ## Further auxiliary definitions -/

/-- The scheduler-visible result of a switch: the new `current_task`, the
table of saved stack pointers and the installed stack pointer. -/
def core (m : Machine) : Int × List Nat × Nat :=
  (m.current_task, m.STACK_POINTERS, m.SP)

/-- The address `p` lies in the region of `size` bytes at `base`. -/
def inRegion (base : Nat) (size : Int) (p : Nat) : Prop :=
  (base : Int) ≤ p ∧ (p : Int) < base + size

instance (base : Nat) (size : Int) (p : Nat) : Decidable (inRegion base size p) := by
  unfold inRegion; infer_instance

/-- The single-task program while its task runs, at a timer interrupt: the
task registered on a 30-byte stack, one switch made, `SP = 0x0117`. -/
def singleRunning : Machine :=
  { (run Variant.fixedTick ((RegisterFunction singleTask 0 30).getD singleTask)
      [0x00F9]).getD singleTask with SP := 0x0117 }

/-- The tasks are registered with the stack sizes `sizes`: every size is at
least 6, every stack region lies in the 16-bit address space, and every saved
pointer is the one `RegisterFunction` computes, `base + size - 1 - 5`. -/
def Registered (m : Machine) (sizes : List Int) : Prop :=
  m.STACKS.length = m.TASKS.length ∧ sizes.length = m.TASKS.length ∧
  ∀ j, j < m.TASKS.length →
    6 ≤ sizes.getD j 0 ∧ ((m.STACKS.getD j 0 : Nat) : Int) + sizes.getD j 0 ≤ 65536 ∧
    m.STACK_POINTERS.getD j 0 = ptrAdd (m.STACKS.getD j 0) (sizes.getD j 0 - 1 - 5)

instance (m : Machine) (sizes : List Int) : Decidable (Registered m sizes) := by
  unfold Registered; infer_instance

/-- Along the run `sps` from `m`, whenever a switch interrupts a running
task, the stack pointer `tsx` captures lies inside that task's own stack
region. -/
def capturedInside (v : Variant) (sizes : List Int) : Machine → List Nat → Bool
  | _, [] => true
  | m, sp :: sps =>
    (decide (m.current_task = -1) ||
      decide (inRegion (m.STACKS.getD m.current_task.toNat 0)
        (sizes.getD m.current_task.toNat 0) (hx (tsx { m with SP := sp })))) &&
    match switch v { m with SP := sp } with
    | none => true
    | some m1 => capturedInside v sizes m1 sps

/-- Every task other than the current one holds a saved pointer inside its
own stack region. -/
def othersInside (m : Machine) (sizes : List Int) : Prop :=
  ∀ j : Nat, j < m.TASKS.length → (j : Int) ≠ m.current_task →
    inRegion (m.STACKS.getD j 0) (sizes.getD j 0) (m.STACK_POINTERS.getD j 0)

instance (m : Machine) (sizes : List Int) : Decidable (othersInside m sizes) := by
  unfold othersInside; infer_instance

/-- The weighted reference program after `main` of `rtos_priority.c`. -/
def priorityRegistered : Machine := (RtosPriority.main refMachine).getD refMachine

/-- Task 2 (`function2`) of the weighted reference program as it reaches its
call of `WaitNext`: two switches made and the interrupt return taken, so the
task runs on its own stack with the interrupt mask clear. -/
def refYielding : Machine :=
  rti (pulh ((run Variant.weighted priorityRegistered [0x00F9, 0x0117]).getD priorityRegistered))

/-- The program of `rtos_rti.c`, linked like the reference program, with its
stacks of 10 and 6 bytes at `0x0100` and `0x010A`, after the two
registrations of its `main`. -/
def rtiRegistered : Machine :=
  ((RegisterFunction (boot [0x8000, 0x8040] [0x0100, 0x010A] []) 0 10).bind
    (fun m1 => RegisterFunction m1 1 6)).getD (boot [0x8000, 0x8040] [0x0100, 0x010A] [])

/-- Task 1 (`function1`) of `rtos_rti.c` running after the first switch and
its interrupt return. -/
def rtiRunning : Machine :=
  rti (pulh ((run Variant.lowPower rtiRegistered [0x00F9]).getD rtiRegistered))

/-- The ticks a free-running 16-bit counter standing at `cnt` takes to reach
`target`: a full period of `65536` when it stands on it already. -/
def ticksToMatch (cnt target : Nat) : Nat :=
  if target % 65536 = cnt % 65536 then 65536
  else (target % 65536 + 65536 - cnt % 65536) % 65536

/-- The dwell times of a run of timer preemptions of the weighted variant.
Each switch is taken by `TimerISR` of `rtos_priority.c` at the compare match,
when the counter stands at `TPM1C0V`; the entry pairs the task switched in
with the ticks until the counter matches the newly programmed `TPM1C0V`,
which is when the next switch is taken. -/
def dwell : Machine → List Nat → List (Int × Nat)
  | _, [] => []
  | m, sp :: sps =>
    match RtosPriority.TimerISR { m with SP := sp } with
    | none => []
    | some m1 => (m1.current_task, ticksToMatch m.TPM1C0V m1.TPM1C0V) :: dwell m1 sps

/-- The ticks for which task `i` has been scheduled. -/
def scheduledTicks (d : List (Int × Nat)) (i : Int) : Nat :=
  ((d.filter (fun e => e.1 = i)).map Prod.snd).sum

/-- The ticks of the whole run. -/
def totalTicks (d : List (Int × Nat)) : Nat := (d.map Prod.snd).sum

/-- The number of times task `i` has been switched in. -/
def timesSwitchedIn (d : List (Int × Nat)) (i : Int) : Nat :=
  (d.filter (fun e => e.1 = i)).length

/-! ## The common effect of a switch -/

/-- The selected index is a task index. -/
theorem nextIndex_range (N : Nat) (cur : Int) (h1 : 1 ≤ N) (h2 : N ≤ 32767) :
    0 ≤ nextIndex N cur ∧ nextIndex N cur < N := by
  unfold nextIndex toUInt16 toSChar
  split <;> omega

/-- A read inside the table succeeds. -/
theorem readAt_some (xs : List Nat) (i : Int) (h0 : 0 ≤ i) (h1 : i < xs.length) :
    ∃ p, readAt xs i = some p := by
  unfold readAt
  have : i.toNat < xs.length := by omega
  simp [h0, List.getElem?_eq_getElem this]

/-- The two bytes `tsx` loads make up `SP + 1` again. -/
theorem hx_tsx (s : Nat) : s % 65536 / 256 * 256 + s % 65536 % 256 = s % 65536 := by
  omega

/-- What `txs` makes of a pointer loaded with `ldhx`. -/
theorem txs_ldhx (p : Nat) :
    (p / 256 % 256 * 256 + p % 256 + 65535) % 65536 = (p % 65536 + 65535) % 65536 := by
  omega

/-- `TimerISR` of `rtos.c` succeeds on well-formed tables and has the common effect. -/
theorem timerISR_rel (m : Machine) (h : TableOK Variant.fixedTick m) :
    ∃ m1, Rtos.TimerISR m = some m1 ∧ SwitchRel m m1 := by
  obtain ⟨h1, h2, h3, -, h5, h6⟩ := h
  have hr := nextIndex_range m.TASKS.length m.current_task h1 h2
  obtain ⟨p, hp⟩ := readAt_some m.STACK_POINTERS (nextIndex m.TASKS.length m.current_task)
    hr.1 (by rw [h3]; exact hr.2)
  have hn : (if toUInt16 (toSChar (m.current_task + 1)) ≥ m.TASKS.length then
      ({ m with TPM1SC := (m.TPM1SC &&& 0xFF7F) % 256, next_task := 0 } : Machine)
      else { m with TPM1SC := (m.TPM1SC &&& 0xFF7F) % 256,
                    next_task := toSChar (m.current_task + 1) }) =
      { m with TPM1SC := (m.TPM1SC &&& 0xFF7F) % 256,
               next_task := nextIndex m.TASKS.length m.current_task } := by
    unfold nextIndex; split <;> rfl
  have hw : m.current_task ≠ -1 → 0 ≤ m.current_task ∧
      m.current_task.toNat < m.STACK_POINTERS.length := by
    intro hne; omega
  by_cases hc : m.current_task = -1
  · refine ⟨_, by simp only [Rtos.TimerISR, hn, hp, tsx, txs, ldhx, hx, writeAt]; simp [hc]; rfl, ?_⟩
    exact
      { cur_eq := by simp [hc]
        sp_eq := ⟨p, by simpa [hc] using hp, by simpa using txs_ldhx p⟩
        table_eq := by simp [hc]
        stores_eq := by simp [hc]
        tasks_eq := rfl
        stacks_eq := rfl
        times_eq := rfl
        mem_eq := rfl }
  · refine ⟨_, by simp only [Rtos.TimerISR, hn, hp, tsx, txs, ldhx, hx, writeAt]; simp [hc, hw hc]; rfl, ?_⟩
    exact
      { cur_eq := by simp [hc]
        sp_eq := ⟨p, by simpa [hc] using hp, by simpa using txs_ldhx p⟩
        table_eq := by simp [hc, hx_tsx]
        stores_eq := by simp [hc, hx_tsx]
        tasks_eq := rfl
        stacks_eq := rfl
        times_eq := rfl
        mem_eq := rfl }

/-- `ScheduleNext` of `rtos_rti.c` succeeds on well-formed tables and has the common effect. -/
theorem rtiScheduleNext_rel (m : Machine) (h : TableOK Variant.lowPower m) :
    ∃ m1, RtosRti.ScheduleNext m = some m1 ∧ SwitchRel m m1 := by
  obtain ⟨h1, h2, h3, -, h5, h6⟩ := h
  have hr := nextIndex_range m.TASKS.length m.current_task h1 h2
  obtain ⟨p, hp⟩ := readAt_some m.STACK_POINTERS (nextIndex m.TASKS.length m.current_task)
    hr.1 (by rw [h3]; exact hr.2)
  have hn : (if toUInt16 (toSChar (m.current_task + 1)) ≥ m.TASKS.length then
      ({ m with next_task := 0 } : Machine)
      else { m with next_task := toSChar (m.current_task + 1) }) =
      { m with next_task := nextIndex m.TASKS.length m.current_task } := by
    unfold nextIndex; split <;> rfl
  have hw : m.current_task ≠ -1 → 0 ≤ m.current_task ∧
      m.current_task.toNat < m.STACK_POINTERS.length := by
    intro hne; omega
  by_cases hc : m.current_task = -1
  · refine ⟨_, by simp only [RtosRti.ScheduleNext, hn, hp, tsx, txs, ldhx, hx, writeAt]; simp [hc]; rfl, ?_⟩
    exact
      { cur_eq := by simp [hc]
        sp_eq := ⟨p, by simpa [hc] using hp, by simpa using txs_ldhx p⟩
        table_eq := by simp [hc]
        stores_eq := by simp [hc]
        tasks_eq := rfl
        stacks_eq := rfl
        times_eq := rfl
        mem_eq := rfl }
  · refine ⟨_, by simp only [RtosRti.ScheduleNext, hn, hp, tsx, txs, ldhx, hx, writeAt]; simp [hc, hw hc]; rfl, ?_⟩
    exact
      { cur_eq := by simp [hc]
        sp_eq := ⟨p, by simpa [hc] using hp, by simpa using txs_ldhx p⟩
        table_eq := by simp [hc, hx_tsx]
        stores_eq := by simp [hc, hx_tsx]
        tasks_eq := rfl
        stacks_eq := rfl
        times_eq := rfl
        mem_eq := rfl }

/-- `ScheduleNext` of `rtos_priority.c` succeeds on well-formed tables and has the
common effect. -/
theorem priorityScheduleNext_rel (m : Machine) (h : TableOK Variant.weighted m) :
    ∃ m1, RtosPriority.ScheduleNext m = some m1 ∧ SwitchRel m m1 := by
  obtain ⟨h1, h2, h3, h4, h5, h6⟩ := h
  have hr := nextIndex_range m.TASKS.length m.current_task h1 h2
  obtain ⟨p, hp⟩ := readAt_some m.STACK_POINTERS (nextIndex m.TASKS.length m.current_task)
    hr.1 (by rw [h3]; exact hr.2)
  obtain ⟨q, hq⟩ := readAt_some m.TIMES (nextIndex m.TASKS.length m.current_task)
    hr.1 (by rw [h4 rfl]; exact hr.2)
  have hn : (if toUInt16 (toSChar (m.current_task + 1)) ≥ m.TASKS.length then
      ({ m with next_task := 0 } : Machine)
      else { m with next_task := toSChar (m.current_task + 1) }) =
      { m with next_task := nextIndex m.TASKS.length m.current_task } := by
    unfold nextIndex; split <;> rfl
  have hw : m.current_task ≠ -1 → 0 ≤ m.current_task ∧
      m.current_task.toNat < m.STACK_POINTERS.length := by
    intro hne; omega
  by_cases hc : m.current_task = -1
  · refine ⟨_, by simp only [RtosPriority.ScheduleNext, hn, hp, hq, tsx, txs, ldhx, hx, writeAt]; simp [hc]; rfl, ?_⟩
    exact
      { cur_eq := by simp [hc]
        sp_eq := ⟨p, by simpa [hc] using hp, by simpa using txs_ldhx p⟩
        table_eq := by simp [hc]
        stores_eq := by simp [hc]
        tasks_eq := rfl
        stacks_eq := rfl
        times_eq := rfl
        mem_eq := rfl }
  · refine ⟨_, by simp only [RtosPriority.ScheduleNext, hn, hp, hq, tsx, txs, ldhx, hx, writeAt]; simp [hc, hw hc]; rfl, ?_⟩
    exact
      { cur_eq := by simp [hc]
        sp_eq := ⟨p, by simpa [hc] using hp, by simpa using txs_ldhx p⟩
        table_eq := by simp [hc, hx_tsx]
        stores_eq := by simp [hc, hx_tsx]
        tasks_eq := rfl
        stacks_eq := rfl
        times_eq := rfl
        mem_eq := rfl }

/-- Every variant's switch succeeds on well-formed tables and has the common effect. -/
theorem switch_rel (v : Variant) (m : Machine) (h : TableOK v m) :
    ∃ m1, switch v m = some m1 ∧ SwitchRel m m1 := by
  cases v
  · exact timerISR_rel m h
  · exact priorityScheduleNext_rel m h
  · exact rtiScheduleNext_rel m h

/-- Well-formedness is kept by a switch. -/
theorem SwitchRel.tableOK {v : Variant} {m m1 : Machine} (h : TableOK v m)
    (r : SwitchRel m m1) : TableOK v m1 := by
  obtain ⟨h1, h2, h3, h4, h5, h6⟩ := h
  have hr := nextIndex_range m.TASKS.length m.current_task h1 h2
  refine ⟨by rw [r.tasks_eq]; exact h1, by rw [r.tasks_eq]; exact h2, ?_, ?_, ?_, ?_⟩
  · rw [r.table_eq, r.tasks_eq]
    split
    · exact h3
    · rw [List.length_set]; exact h3
  · intro hv; rw [r.times_eq, r.tasks_eq]; exact h4 hv
  · rw [r.cur_eq]; omega
  · rw [r.cur_eq, r.tasks_eq]; exact hr.2

/-- Well-formedness does not depend on the hardware stack pointer. -/
theorem tableOK_setSP {v : Variant} {m : Machine} (h : TableOK v m) (sp : Nat) :
    TableOK v { m with SP := sp } := h

/-- The selection is a rotation modulo `min N 128`: the `signed char` counter
wraps to a negative value at 128, which the unsigned comparison sends to 0. -/
theorem nextIndex_mod (N : Nat) (cur : Int) (h1 : 1 ≤ N) (h2 : N ≤ 32767)
    (h3 : -1 ≤ cur) (h4 : cur < (min N 128 : Nat)) :
    nextIndex N cur = (cur + 1) % (min N 128 : Nat) := by
  have hmin : ((min N 128 : Nat) : Int) = min (N : Int) 128 := by simp
  rw [hmin] at h4 ⊢
  by_cases hc : cur + 1 = min (N : Int) 128
  · rw [hc, Int.emod_self]
    unfold nextIndex toUInt16 toSChar
    split
    · rfl
    · omega
  · rw [Int.emod_eq_of_lt (by omega) (by omega)]
    unfold nextIndex toUInt16 toSChar
    split <;> omega

/-- After `k ≥ 1` switches `current_task` has advanced by `k` modulo `min N 128`. -/
theorem run_rotation (v : Variant) (sps : List Nat) :
    ∀ (m : Machine) (sp : Nat), TableOK v m →
      m.current_task < (min m.TASKS.length 128 : Nat) →
      ∃ m1, run v m (sp :: sps) = some m1 ∧ TableOK v m1 ∧ m1.TASKS = m.TASKS ∧
        m1.current_task = (m.current_task + (sps.length + 1 : Nat)) % (min m.TASKS.length 128 : Nat) := by
  induction sps with
  | nil =>
    intro m sp hm hlt
    obtain ⟨m1, hs, r⟩ := switch_rel v _ (tableOK_setSP hm sp)
    refine ⟨m1, by simp [run, hs], r.tableOK (tableOK_setSP hm sp), r.tasks_eq, ?_⟩
    rw [r.cur_eq]
    exact nextIndex_mod _ _ hm.1 hm.2.1 hm.2.2.2.2.1 hlt
  | cons sp1 rest ih =>
    intro m sp hm hlt
    obtain ⟨m1, hs, r⟩ := switch_rel v _ (tableOK_setSP hm sp)
    have hm1 := r.tableOK (tableOK_setSP hm sp)
    have hc : m1.current_task = (m.current_task + 1) % (min m.TASKS.length 128 : Nat) := by
      rw [r.cur_eq]
      exact nextIndex_mod _ _ hm.1 hm.2.1 hm.2.2.2.2.1 hlt
    have ht : m1.TASKS = m.TASKS := r.tasks_eq
    have hpos : (0 : Int) < (min m.TASKS.length 128 : Nat) := by
      have := hm.1
      simp; omega
    obtain ⟨m2, hr, hm2, ht2, hc2⟩ := ih m1 sp1 hm1 (by
      rw [ht, hc]; exact Int.emod_lt_of_pos _ hpos)
    refine ⟨m2, ?_, hm2, ht2.trans ht, ?_⟩
    · rw [run, hs]; exact hr
    · rw [hc2, ht, hc, Int.emod_add_emod]
      congr 1
      simp only [List.length_cons]
      push_cast
      ring

/-- The values visited by a run advance by one modulo `min N 128` at each switch. -/
theorem visited_rotation (v : Variant) (sps : List Nat) :
    ∀ (m : Machine), TableOK v m →
      m.current_task < (min m.TASKS.length 128 : Nat) →
      visited v m sps = (List.range sps.length).map
        (fun (j : Nat) => (m.current_task + 1 + (j : Int)) % (min m.TASKS.length 128 : Nat)) := by
  induction sps with
  | nil => intro m _ _; rfl
  | cons sp rest ih =>
    intro m hm hlt
    obtain ⟨m1, hs, r⟩ := switch_rel v _ (tableOK_setSP hm sp)
    have hm1 := r.tableOK (tableOK_setSP hm sp)
    have hc : m1.current_task = (m.current_task + 1) % (min m.TASKS.length 128 : Nat) := by
      rw [r.cur_eq]
      exact nextIndex_mod _ _ hm.1 hm.2.1 hm.2.2.2.2.1 hlt
    have ht : m1.TASKS = m.TASKS := r.tasks_eq
    have hpos : (0 : Int) < (min m.TASKS.length 128 : Nat) := by
      have := hm.1
      simp; omega
    have ih1 := ih m1 hm1 (by rw [ht, hc]; exact Int.emod_lt_of_pos _ hpos)
    simp only [visited, hs, List.length_cons, List.range_succ_eq_map, List.map_cons,
      List.map_map, ih1, ht]
    congr 1
    · rw [hc]; simp
    · apply List.map_congr_left
      intro j _
      simp only [Function.comp, hc, Nat.succ_eq_add_one]
      rw [add_assoc, Int.emod_add_emod]
      congr 1
      push_cast
      ring

/-! ## Rotation -/

/-- C1 (amended): rotation totality for at most 128 tasks. For every variant,
every well-formed table of `1 ≤ N ≤ 128` tasks and every run of `k ≥ 1`
switches from the sentinel state, the run succeeds, `current_task` is
`(k - 1) mod N` after it, and the values visited are `0, 1, …, N-1, 0, 1, …`. -/
theorem C1_rotation (v : Variant) (m : Machine) (sps : List Nat)
    (hm : TableOK v m) (h0 : m.current_task = -1) (hN : m.TASKS.length ≤ 128)
    (hk : 1 ≤ sps.length) :
    (∃ m1, run v m sps = some m1 ∧
      m1.current_task = (((sps.length - 1) % m.TASKS.length : Nat) : Int)) ∧
    visited v m sps =
      (List.range sps.length).map (fun (j : Nat) => (((j % m.TASKS.length : Nat)) : Int)) := by
  have hmin : min m.TASKS.length 128 = m.TASKS.length := Nat.min_eq_left hN
  have hlt : m.current_task < (min m.TASKS.length 128 : Nat) := by
    have := hm.1
    rw [h0, hmin]; omega
  constructor
  · cases sps with
    | nil => simp at hk
    | cons sp rest =>
      obtain ⟨m1, hr, -, -, hc⟩ := run_rotation v rest m sp hm hlt
      refine ⟨m1, hr, ?_⟩
      rw [hc, h0, hmin]
      simp only [List.length_cons, Nat.add_sub_cancel]
      push_cast
      congr 1
      ring
  · rw [visited_rotation v sps m hm hlt, h0, hmin]
    apply List.map_congr_left
    intro j _
    push_cast
    congr 1
    ring

/-- C1 at a concrete input: the two tasks of the reference program and five
switches visit `0,1,0,1,0`. -/
theorem C1_rotation_witness :
    (TableOK Variant.fixedTick refRegistered ∧ refRegistered.current_task = -1 ∧
      refRegistered.TASKS.length ≤ 128 ∧
      1 ≤ [0x00F9, 0x0117, 0x012B, 0x0117, 0x012B].length) ∧
    ((∃ m1, run Variant.fixedTick refRegistered [0x00F9, 0x0117, 0x012B, 0x0117, 0x012B]
        = some m1 ∧ m1.current_task = 0) ∧
     visited Variant.fixedTick refRegistered [0x00F9, 0x0117, 0x012B, 0x0117, 0x012B]
       = [0, 1, 0, 1, 0]) :=
  ⟨⟨by decide, by decide, by decide, by decide⟩,
   C1_rotation Variant.fixedTick refRegistered [0x00F9, 0x0117, 0x012B, 0x0117, 0x012B]
     (by decide) (by decide) (by decide) (by decide)⟩

/-- C1 as stated fails for 129 tasks: `current_task` is a `signed char`, so
after 129 switches from the sentinel state it is `0`, not `(129 - 1) mod 129 = 128`
(task 128 is never selected). -/
theorem C1_counterexample :
    TableOK Variant.fixedTick table129 ∧ table129.current_task = -1 ∧
    table129.TASKS.length = 129 ∧
    ∃ m1, run Variant.fixedTick table129 (List.replicate 129 0x00FF) = some m1 ∧
      m1.current_task = 0 ∧
      m1.current_task ≠ (((129 - 1) % table129.TASKS.length : Nat) : Int) := by
  have hlen : table129.TASKS.length = 129 := by simp [table129, boot]
  have hok : TableOK Variant.fixedTick table129 := by
    simp [TableOK, table129, boot]
  have hcur : table129.current_task = -1 := rfl
  refine ⟨hok, hcur, hlen, ?_⟩
  obtain ⟨m1, hr, -, -, hc⟩ := run_rotation Variant.fixedTick (List.replicate 128 0x00FF)
    table129 0x00FF hok (by rw [hcur, hlen]; decide)
  refine ⟨m1, ?_, ?_, ?_⟩
  · rw [← hr]; rfl
  · rw [hc, hcur, hlen]; simp
  · rw [hc, hcur, hlen]; simp

/-! ## Resuming a task -/

/-- Reading the entry just stored. -/
theorem readAt_set_same (xs : List Nat) (i : Int) (w : Nat) (h0 : 0 ≤ i)
    (h1 : i.toNat < xs.length) : readAt (xs.set i.toNat w) i = some w := by
  simp [readAt, h0, h1]

/-- Reading another entry than the one stored. -/
theorem readAt_set_other (xs : List Nat) (i j : Int) (w : Nat) (h0 : 0 ≤ j)
    (hij : i ≠ j) : readAt (xs.set j.toNat w) i = readAt xs i := by
  unfold readAt
  split
  · rw [List.getElem?_set_ne]
    omega
  · rfl

/-- With at least two tasks a switch never selects the outgoing task. -/
theorem nextIndex_ne (N : Nat) (cur : Int) (h2 : 2 ≤ N) : nextIndex N cur ≠ cur := by
  unfold nextIndex toUInt16 toSChar
  split <;> omega

/-- A run followed by one more switch. -/
theorem run_append (v : Variant) (sps : List Nat) (sp : Nat) :
    ∀ (m m1 : Machine), run v m sps = some m1 →
      run v m (sps ++ [sp]) = switch v { m1 with SP := sp } := by
  induction sps with
  | nil =>
    intro m m1 h
    simp only [run, Option.some.injEq] at h
    subst h
    simp only [List.nil_append, run]
    cases switch v { m with SP := sp } <;> rfl
  | cons s rest ih =>
    intro m m1 h
    simp only [List.cons_append, run] at h ⊢
    cases hs : switch v { m with SP := s } with
    | none => simp [hs] at h
    | some m' =>
      simp only [hs] at h ⊢
      exact ih m' m1 h

/-- One more switch switches out the task that was current. -/
theorem lastOut_append (v : Variant) (i : Int) (sps : List Nat) (sp : Nat) :
    ∀ (m m1 m2 : Machine), run v m sps = some m1 → switch v { m1 with SP := sp } = some m2 →
      lastOut v i m (sps ++ [sp]) =
        if m1.current_task = i then some sp else lastOut v i m sps := by
  induction sps with
  | nil =>
    intro m m1 m2 h hs
    simp only [run, Option.some.injEq] at h
    subst h
    simp [lastOut, hs]
  | cons s rest ih =>
    intro m m1 m2 h hs
    simp only [List.cons_append, run, lastOut] at h ⊢
    cases hs1 : switch v { m with SP := s } with
    | none => simp [hs1] at h
    | some m' =>
      simp only [hs1] at h ⊢
      rw [show rest.append [sp] = rest ++ [sp] from rfl, ih m' m1 m2 h hs]
      by_cases hc : m1.current_task = i
      · simp [hc]
      · simp [hc]

/-- The pointer a switch installs is the one captured when the incoming task
was last switched out earlier in the run, or the boot table entry. -/
theorem resume_general (v : Variant) (sps : List Nat) :
    ∀ (m : Machine) (sp : Nat), TableOK v m → (∀ s ∈ sps, s < 65536) →
      ∃ m1 m2, run v m sps = some m1 ∧ TableOK v m1 ∧ m1.TASKS = m.TASKS ∧
        switch v { m1 with SP := sp } = some m2 ∧
        m2.current_task = nextIndex m.TASKS.length m1.current_task ∧
        match lastOut v m2.current_task m sps with
        | some s => m2.SP = s
        | none => ∃ p, readAt m.STACK_POINTERS m2.current_task = some p ∧
            m2.SP = (p % 65536 + 65535) % 65536 := by
  induction sps with
  | nil =>
    intro m sp hm _
    obtain ⟨m2, hs, r⟩ := switch_rel v _ (tableOK_setSP hm sp)
    exact ⟨m, m2, rfl, hm, rfl, hs, r.cur_eq, r.sp_eq⟩
  | cons s rest ih =>
    intro m sp hm hsps
    obtain ⟨m', hs', r'⟩ := switch_rel v _ (tableOK_setSP hm s)
    have hm' := r'.tableOK (tableOK_setSP hm s)
    obtain ⟨m1, m2, hr, hm1, ht1, hs, hc, hres⟩ := ih m' sp hm'
      (fun x hx => hsps x (List.mem_cons_of_mem _ hx))
    have ht' : m'.TASKS = m.TASKS := r'.tasks_eq
    refine ⟨m1, m2, by simp only [run, hs']; exact hr, hm1, ht1.trans ht', hs,
      by rw [hc, ht'], ?_⟩
    simp only [lastOut, hs']
    cases hl : lastOut v m2.current_task m' rest with
    | some x => simpa [hl] using hres
    | none =>
      simp only [hl] at hres ⊢
      obtain ⟨p, hp, hsp⟩ := hres
      have hs16 : s < 65536 := hsps s (List.mem_cons_self _ _)
      have hrange := nextIndex_range m'.TASKS.length m1.current_task hm'.1 hm'.2.1
      rw [← hc] at hrange
      have htab := r'.table_eq
      simp only at htab
      by_cases hcur : m.current_task = m2.current_task
      · simp only [hcur, if_true]
        have hne : ¬ m.current_task = -1 := by omega
        rw [htab, if_neg hne, hcur, readAt_set_same _ _ _ hrange.1 (by
          have := hm.2.2.1; have := hrange.2; rw [ht'] at this; omega)] at hp
        simp only [Option.some.injEq] at hp
        rw [hsp, ← hp]
        omega
      · simp only [hcur, if_false]
        refine ⟨p, ?_, hsp⟩
        rw [htab] at hp
        by_cases hne : m.current_task = -1
        · simpa [hne] using hp
        · rw [if_neg hne, readAt_set_other _ _ _ _ (by have := hm.2.2.2.2.1; omega)
            (Ne.symm hcur)] at hp
          exact hp

/-- A task other than the one current at the end of a run was switched out
during the run exactly if it was current at some point of the run: at its
start (for a run of at least one switch) or after one of its switches. -/
theorem lastOut_isSome (v : Variant) (i : Int) (sps : List Nat) :
    ∀ (m m1 : Machine), run v m sps = some m1 → i ≠ m1.current_task →
      ((lastOut v i m sps).isSome ↔
        (i = m.current_task ∧ sps ≠ []) ∨ i ∈ visited v m sps) := by
  induction sps with
  | nil =>
    intro m m1 _ _
    simp [lastOut, visited]
  | cons s rest ih =>
    intro m m1 h hne
    simp only [run] at h
    cases hs : switch v { m with SP := s } with
    | none => simp [hs] at h
    | some m' =>
      simp only [hs] at h
      have hih := ih m' m1 h hne
      simp only [lastOut, visited, hs]
      cases hl : lastOut v i m' rest with
      | some x =>
        rw [hl] at hih
        have hr := hih.mp rfl
        constructor
        · intro _
          right
          rcases hr with hr | hr
          · rw [hr.1]; exact List.mem_cons_self _ _
          · exact List.mem_cons_of_mem _ hr
        · intro _
          rfl
      | none =>
        rw [hl] at hih
        have hr : ¬ ((i = m'.current_task ∧ rest ≠ []) ∨ i ∈ visited v m' rest) :=
          fun hx => by simpa using hih.mpr hx
        by_cases hc : m.current_task = i
        · simp [hc]
        · have hc2 : ¬ i = m.current_task := fun hx => hc hx.symm
          have hv : i ∉ visited v m' rest := fun hx => hr (Or.inr hx)
          have hm' : ¬ i = m'.current_task := by
            intro hx
            cases rest with
            | nil =>
              simp only [run, Option.some.injEq] at h
              rw [h] at hx
              exact hne hx
            | cons r rs => exact hr (Or.inl ⟨hx, List.cons_ne_nil _ _⟩)
          simp [hc, hc2, hv, hm']

/-- C2: resume where it left off. For every variant, every well-formed table
of `N ≥ 2` tasks and every run `sps` of switches from the sentinel state
(16-bit stack pointers), the run and one more switch succeed; the incoming
task of that switch is the task the selection picks, a task index below `N`
other than the outgoing task; it was switched out earlier in the run exactly
if it has run, that is, if it was the current task after one of the switches
of `sps`; and the stack pointer the switch installs for it is the hardware
stack pointer in effect when it was last switched out in `sps`, whatever the
stack pointer `sp` on entry to the switch itself, or, if it has never run,
`p - 1` modulo `2^16` for the entry `p` the table held for it at the start,
which is what `txs` makes of the value `RegisterFunction` stored. -/
theorem C2_resume (v : Variant) (m : Machine) (sps : List Nat) (sp : Nat)
    (hm : TableOK v m) (h0 : m.current_task = -1) (hN : 2 ≤ m.TASKS.length)
    (h16 : ∀ s ∈ sps, s < 65536) :
    ∃ m1 m2, run v m sps = some m1 ∧ switch v { m1 with SP := sp } = some m2 ∧
      m2.current_task = nextIndex m.TASKS.length m1.current_task ∧
      m2.current_task ≠ m1.current_task ∧
      0 ≤ m2.current_task ∧ m2.current_task < m.TASKS.length ∧
      (lastOut v m2.current_task m sps = none ↔ m2.current_task ∉ visited v m sps) ∧
      match lastOut v m2.current_task m sps with
      | some s => m2.SP = s
      | none => ∃ p, readAt m.STACK_POINTERS m2.current_task = some p ∧
          m2.SP = (p % 65536 + 65535) % 65536 := by
  obtain ⟨m1, m2, hr, -, -, hs, hc, hres⟩ := resume_general v sps m sp hm h16
  have hne : m2.current_task ≠ m1.current_task := by
    rw [hc]; exact nextIndex_ne _ _ hN
  have hrange := nextIndex_range m.TASKS.length m1.current_task hm.1 hm.2.1
  rw [← hc] at hrange
  have hsome := lastOut_isSome v m2.current_task sps m m1 hr hne
  have hstart : ¬ (m2.current_task = m.current_task ∧ sps ≠ []) := by
    intro hx
    have := hx.1
    omega
  refine ⟨m1, m2, hr, hs, hc, hne, hrange.1, hrange.2, ?_, hres⟩
  constructor
  · intro hnone hv
    have hx := hsome.mpr (Or.inr hv)
    rw [hnone] at hx
    exact Bool.noConfusion hx
  · intro hv
    cases hl : lastOut v m2.current_task m sps with
    | none => rfl
    | some x =>
      rw [hl] at hsome
      rcases hsome.mp rfl with hx | hx
      · exact absurd hx hstart
      · exact absurd hx hv

/-- C2 at a concrete input: the fourth switch of the reference program,
entered with `SP = 0x0110`, resumes task 1 with `SP = 0x0125`, the stack
pointer of its preemption by the third switch; the table entry
`RegisterFunction` computed for task 1 is `0x012C`. -/
theorem C2_resume_witness :
    (TableOK Variant.fixedTick refRegistered ∧ refRegistered.current_task = -1 ∧
      2 ≤ refRegistered.TASKS.length ∧ ∀ s ∈ [0x00F9, 0x0117, 0x0125], s < 65536) ∧
    (∃ (m1 m2 : Machine),
      run Variant.fixedTick refRegistered [0x00F9, 0x0117, 0x0125] = some m1 ∧
      switch Variant.fixedTick { m1 with SP := 0x0110 } = some m2 ∧
      m2.current_task = nextIndex refRegistered.TASKS.length m1.current_task ∧
      m2.current_task ≠ m1.current_task ∧
      0 ≤ m2.current_task ∧ m2.current_task < refRegistered.TASKS.length ∧
      (lastOut Variant.fixedTick m2.current_task refRegistered [0x00F9, 0x0117, 0x0125] = none ↔
        m2.current_task ∉ visited Variant.fixedTick refRegistered [0x00F9, 0x0117, 0x0125]) ∧
      match lastOut Variant.fixedTick m2.current_task refRegistered
          [0x00F9, 0x0117, 0x0125] with
      | some s => m2.SP = s
      | none => ∃ p, readAt refRegistered.STACK_POINTERS m2.current_task = some p ∧
          m2.SP = (p % 65536 + 65535) % 65536) ∧
    (lastOut Variant.fixedTick 1 refRegistered [0x00F9, 0x0117, 0x0125] = some 0x0125 ∧
      visited Variant.fixedTick refRegistered [0x00F9, 0x0117, 0x0125, 0x0110] = [0, 1, 0, 1] ∧
      readAt refRegistered.STACK_POINTERS 1 = some 0x012C) :=
  ⟨⟨by decide, by decide, by decide, by decide⟩,
   C2_resume Variant.fixedTick refRegistered [0x00F9, 0x0117, 0x0125] 0x0110
     (by decide) (by decide) (by decide) (by decide),
   ⟨by decide, by decide, by decide⟩⟩

/-! ## Registration and the first switch -/

/-- The high byte `(unsigned char)((int)f >> 8)`: the arithmetic shift of a
negative `int` still ends in the high byte of the address. -/
theorem hi_byte (e : Nat) : toUChar (toInt16 e >>> (8 : Nat)) = e % 65536 / 256 := by
  rw [Int.shiftRight_eq_div_pow]
  unfold toUChar toInt16
  split <;> omega

/-- The low byte `(unsigned char)(int)f & 0xff`. -/
theorem lo_byte (e : Nat) : toUChar (toInt16 e) &&& 0xff = e % 256 := by
  have h := Nat.and_pow_two_sub_one_eq_mod (toUChar (toInt16 e)) 8
  have h2 : toUChar (toInt16 e) = e % 256 := by
    unfold toUChar toInt16
    split <;> omega
  simpa [h2] using h

/-- What `RegisterFunction` does to the machine. -/
theorem registerFunction_eq (m : Machine) (i : Nat) (stack_size : Int) (entry base : Nat)
    (he : m.TASKS[i]? = some entry) (hb : m.STACKS[i]? = some base)
    (hi : i < m.STACK_POINTERS.length) :
    RegisterFunction m i stack_size = some
      { m with
        f := entry
        mem := store (store m.mem (ptrAdd base (stack_size - 2)) (entry % 65536 / 256))
          (ptrAdd base (stack_size - 1)) (entry % 256)
        STACK_POINTERS := m.STACK_POINTERS.set i (ptrAdd base (stack_size - 1 - 5)) } := by
  simp only [RegisterFunction, he, hb, hi, if_true, hi_byte, lo_byte]

/-- Installing a saved pointer `p` with `ldhx`, `txs` leaves `SP = p - 1`. -/
theorem install_sp (m : Machine) (p : Nat) :
    (txs (ldhx m p)).SP = (p % 65536 + 65535) % 65536 ∧ (txs (ldhx m p)).mem = m.mem := by
  refine ⟨?_, rfl⟩
  simp only [txs, ldhx]
  omega

/-- The interrupt return path `pulh`, `rti` from `SP = p - 1` pulls the six
bytes `p … p+5`: `H`, `CCR`, `A`, `X`, `PCH`, `PCL`. -/
theorem return_path (m : Machine) (p : Nat) (hsp : m.SP = (p % 65536 + 65535) % 65536)
    (hp : p + 5 < 65536) :
    (rti (pulh m)).SP = p + 5 ∧
    (rti (pulh m)).PC = m.mem (p + 4) * 256 + m.mem (p + 5) ∧
    (rti (pulh m)).H = m.mem p ∧
    (rti (pulh m)).CCR = m.mem (p + 1) ∧
    (rti (pulh m)).A = m.mem (p + 2) ∧
    (rti (pulh m)).X = m.mem (p + 3) := by
  have e1 : (m.SP + 1) % 65536 = p := by omega
  have e2 : (p + 1) % 65536 = p + 1 := by omega
  have e3 : (p + 2) % 65536 = p + 2 := by omega
  have e4 : (p + 3) % 65536 = p + 3 := by omega
  have e5 : (p + 4) % 65536 = p + 4 := by omega
  have e6 : (p + 5) % 65536 = p + 5 := by omega
  simp only [rti, pulh, e1, e2, e3, e4, e5, e6, and_self]

/-- The selection picks `i` from `current_task = i - 1` when `i` is a task
index that a `signed char` holds. -/
theorem nextIndex_pred (N i : Nat) (hi : i < N) (h127 : i ≤ 127) :
    nextIndex N ((i : Int) - 1) = i := by
  unfold nextIndex toUInt16 toSChar
  split <;> omega

/-- C3: first-switch frame correctness. After `RegisterFunction(i, stack_size)`
with a 16-bit entry address and `stack_size ≥ 6` (the stack region lying in
the 16-bit address space), the saved pointer is `p = base + stack_size - 6`;
installing it with `ldhx`, `txs` (`SP = p - 1`) and running `pulh`, `rti`
pulls `H`, `CCR`, `A`, `X` from `p … p+3` and the program counter from the
two top bytes, so `PC` is the entry address, exactly the six bytes ending at
the last byte of the region are consumed, and `SP = base + stack_size - 1`.
The same holds after an actual switch of any variant that selects task `i`
(`current_task = i - 1`, `i ≤ 127`). -/
theorem C3_first_switch_frame (m : Machine) (i : Nat) (stack_size : Int) (entry base : Nat)
    (he : m.TASKS[i]? = some entry) (hb : m.STACKS[i]? = some base)
    (hi : i < m.STACK_POINTERS.length) (he16 : entry < 65536)
    (h6 : 6 ≤ stack_size) (hfit : (base : Int) + stack_size ≤ 65536) :
    ∃ m1 p, RegisterFunction m i stack_size = some m1 ∧ m1.STACK_POINTERS[i]? = some p ∧
      (p : Int) = base + stack_size - 6 ∧
      (txs (ldhx m1 p)).SP = (p + 65535) % 65536 ∧
      ((rti (pulh (txs (ldhx m1 p)))).SP : Int) = base + stack_size - 1 ∧
      (rti (pulh (txs (ldhx m1 p)))).PC = entry ∧
      (rti (pulh (txs (ldhx m1 p)))).H = m1.mem p ∧
      (rti (pulh (txs (ldhx m1 p)))).CCR = m1.mem (p + 1) ∧
      (rti (pulh (txs (ldhx m1 p)))).A = m1.mem (p + 2) ∧
      (rti (pulh (txs (ldhx m1 p)))).X = m1.mem (p + 3) ∧
      (∀ (v : Variant) (sp : Nat), TableOK v m1 → m1.current_task = (i : Int) - 1 → i ≤ 127 →
        ∃ m2, switch v { m1 with SP := sp } = some m2 ∧ m2.current_task = i ∧
          ((rti (pulh m2)).SP : Int) = base + stack_size - 1 ∧
          (rti (pulh m2)).PC = entry) := by
  have hreg := registerFunction_eq m i stack_size entry base he hb hi
  have hp : ((ptrAdd base (stack_size - 1 - 5) : Nat) : Int) = base + stack_size - 6 := by
    unfold ptrAdd; omega
  have ha2 : ptrAdd base (stack_size - 2) = ptrAdd base (stack_size - 1 - 5) + 4 := by
    unfold ptrAdd; omega
  have ha1 : ptrAdd base (stack_size - 1) = ptrAdd base (stack_size - 1 - 5) + 5 := by
    unfold ptrAdd; omega
  rw [ha2, ha1] at hreg
  generalize ptrAdd base (stack_size - 1 - 5) = p at hreg hp
  have hp5 : p + 5 < 65536 := by omega
  have hpm : p % 65536 = p := by omega
  obtain ⟨m1, hm1⟩ : ∃ m1, m1 = ({ m with
        f := entry
        mem := store (store m.mem (p + 4) (entry % 65536 / 256)) (p + 5) (entry % 256)
        STACK_POINTERS := m.STACK_POINTERS.set i p } : Machine) := ⟨_, rfl⟩
  rw [← hm1] at hreg
  have hmem4 : m1.mem (p + 4) = entry % 65536 / 256 := by
    rw [hm1]; simp [store]
  have hmem5 : m1.mem (p + 5) = entry % 256 := by
    rw [hm1]; simp [store]
  have hsp1 : m1.STACK_POINTERS[i]? = some p := by
    rw [hm1]; simp [List.getElem?_set_self hi]
  have hpc : m1.mem (p + 4) * 256 + m1.mem (p + 5) = entry := by
    rw [hmem4, hmem5]; omega
  obtain ⟨i1, i2⟩ := install_sp m1 p
  obtain ⟨r1, r2, r3, r4, r5, r6⟩ := return_path (txs (ldhx m1 p)) p i1 hp5
  rw [i2] at r2 r3 r4 r5 r6
  refine ⟨m1, p, hreg, hsp1, hp, by rw [i1, hpm], by rw [r1]; push_cast; omega,
    by rw [r2, hpc], r3, r4, r5, r6, ?_⟩
  intro v sp hok hcur h127
  obtain ⟨m2, hs, r⟩ := switch_rel v _ (tableOK_setSP hok sp)
  have hiN : i < m1.TASKS.length := by
    have := hok.2.2.1
    have : i < m1.STACK_POINTERS.length := by rw [hm1]; simpa using hi
    omega
  have hc2 : m2.current_task = i := by
    rw [r.cur_eq]
    show nextIndex m1.TASKS.length m1.current_task = i
    rw [hcur]
    exact nextIndex_pred _ _ hiN h127
  obtain ⟨q, hq, hsq⟩ := r.sp_eq
  rw [hc2] at hq
  have hqp : q = p := by
    have : readAt m1.STACK_POINTERS (i : Int) = some p := by
      simp [readAt, hsp1]
    have hq' : readAt m1.STACK_POINTERS (i : Int) = some q := hq
    rw [this] at hq'
    exact (Option.some.inj hq').symm
  rw [hqp] at hsq
  obtain ⟨s1, s2, -⟩ := return_path m2 p hsq hp5
  have hmem : m2.mem = m1.mem := r.mem_eq
  refine ⟨m2, hs, hc2, by rw [s1]; push_cast; omega, by rw [s2, hmem, hpc]⟩

/-- C3 at a concrete input: task 2 of the reference program on its 20-byte stack. -/
theorem C3_first_switch_frame_witness :
    (refMachine.TASKS[1]? = some 0x8040 ∧ refMachine.STACKS[1]? = some 0x011E ∧
      1 < refMachine.STACK_POINTERS.length ∧ 0x8040 < 65536 ∧ (6 : Int) ≤ 20 ∧
      ((0x011E : Nat) : Int) + 20 ≤ 65536) ∧
    ∃ (m1 : Machine) (p : Nat), RegisterFunction refMachine 1 20 = some m1 ∧
      m1.STACK_POINTERS[1]? = some p ∧
      (p : Int) = ((0x011E : Nat) : Int) + 20 - 6 ∧
      (txs (ldhx m1 p)).SP = (p + 65535) % 65536 ∧
      ((rti (pulh (txs (ldhx m1 p)))).SP : Int) = ((0x011E : Nat) : Int) + 20 - 1 ∧
      (rti (pulh (txs (ldhx m1 p)))).PC = 0x8040 ∧
      (rti (pulh (txs (ldhx m1 p)))).H = m1.mem p ∧
      (rti (pulh (txs (ldhx m1 p)))).CCR = m1.mem (p + 1) ∧
      (rti (pulh (txs (ldhx m1 p)))).A = m1.mem (p + 2) ∧
      (rti (pulh (txs (ldhx m1 p)))).X = m1.mem (p + 3) ∧
      (∀ (v : Variant) (sp : Nat), TableOK v m1 → m1.current_task = ((1 : Nat) : Int) - 1 →
        1 ≤ 127 →
        ∃ m2, switch v { m1 with SP := sp } = some m2 ∧ m2.current_task = ((1 : Nat) : Int) ∧
          ((rti (pulh m2)).SP : Int) = ((0x011E : Nat) : Int) + 20 - 1 ∧
          (rti (pulh m2)).PC = 0x8040) :=
  ⟨⟨rfl, rfl, by decide, by decide, by decide, by decide⟩,
   C3_first_switch_frame refMachine 1 20 0x8040 0x011E rfl rfl (by decide) (by decide)
     (by decide) (by decide)⟩

/-! ## The entry address -/

/-- C4: `RegisterFunction(i, stack_size)` stores the 16-bit entry address
big-endian in `STACKS[i][stack_size-2]` (high byte) and
`STACKS[i][stack_size-1]` (low byte), for every task index and every
`stack_size` (so for every `stack_size ≥ 2`), also for addresses from `0x8000`
on, where `(int)f` is negative and `>> 8` is an arithmetic shift. -/
theorem C4_entry_big_endian (m : Machine) (i : Nat) (stack_size : Int) (entry base : Nat)
    (he : m.TASKS[i]? = some entry) (hb : m.STACKS[i]? = some base)
    (hi : i < m.STACK_POINTERS.length) (he16 : entry < 65536) :
    ∃ m1, RegisterFunction m i stack_size = some m1 ∧
      m1.mem (ptrAdd base (stack_size - 2)) = entry / 256 ∧
      m1.mem (ptrAdd base (stack_size - 1)) = entry % 256 ∧
      256 * m1.mem (ptrAdd base (stack_size - 2)) + m1.mem (ptrAdd base (stack_size - 1))
        = entry ∧
      (2 ≤ stack_size → (base : Int) + stack_size ≤ 65536 →
        (ptrAdd base (stack_size - 2) : Int) = base + stack_size - 2 ∧
        (ptrAdd base (stack_size - 1) : Int) = base + stack_size - 1) := by
  have hreg := registerFunction_eq m i stack_size entry base he hb hi
  have hne : ptrAdd base (stack_size - 2) ≠ ptrAdd base (stack_size - 1) := by
    unfold ptrAdd; omega
  have hm : entry % 65536 = entry := Nat.mod_eq_of_lt he16
  refine ⟨_, hreg, ?_, ?_, ?_, ?_⟩
  · simp [store, hne, hm]
  · simp [store]
  · simp only [store, hne, if_true, if_false, hm]
    omega
  · intro h2 hfit
    unfold ptrAdd
    omega

/-- C4 at a concrete input: task 2 of the reference program, entered at `0x8040`. -/
theorem C4_entry_big_endian_witness :
    (refMachine.TASKS[1]? = some 0x8040 ∧ refMachine.STACKS[1]? = some 0x011E ∧
      1 < refMachine.STACK_POINTERS.length ∧ 0x8040 < 65536) ∧
    ∃ m1, RegisterFunction refMachine 1 20 = some m1 ∧
      m1.mem (ptrAdd 0x011E (20 - 2)) = 0x8040 / 256 ∧
      m1.mem (ptrAdd 0x011E (20 - 1)) = 0x8040 % 256 ∧
      256 * m1.mem (ptrAdd 0x011E (20 - 2)) + m1.mem (ptrAdd 0x011E (20 - 1)) = 0x8040 ∧
      ((2 : Int) ≤ 20 → ((0x011E : Nat) : Int) + 20 ≤ 65536 →
        (ptrAdd 0x011E (20 - 2) : Int) = (0x011E : Nat) + 20 - 2 ∧
        (ptrAdd 0x011E (20 - 1) : Int) = (0x011E : Nat) + 20 - 1) :=
  ⟨⟨rfl, rfl, by decide, by decide⟩,
   C4_entry_big_endian refMachine 1 20 0x8040 0x011E rfl rfl (by decide) (by decide)⟩

/-! ## The saved stack pointer -/

/-- The two registrations of `main` in `rtos.c`. -/
theorem main_eq (m : Machine) (t1 t2 b0 b1 : Nat) (ht : m.TASKS = [t1, t2])
    (hs : m.STACKS = [b0, b1]) (hl : m.STACK_POINTERS.length = 2)
    (h0 : b0 + 30 ≤ 65536) (h1 : b1 + 20 ≤ 65536) :
    ∃ m0, Rtos.main m = some m0 ∧ m0.STACK_POINTERS = [b0 + 24, b1 + 14] ∧
      m0.TASKS = m.TASKS ∧ m0.STACKS = m.STACKS ∧ m0.TIMES = m.TIMES ∧
      m0.current_task = m.current_task ∧ m0.spStores = m.spStores := by
  obtain ⟨x, y, hxy⟩ : ∃ x y, m.STACK_POINTERS = [x, y] := by
    match hsp : m.STACK_POINTERS, hl with
    | [x, y], _ => exact ⟨x, y, rfl⟩
  have e0 : ptrAdd b0 (30 - 1 - 5) = b0 + 24 := by unfold ptrAdd; omega
  have e1 : ptrAdd b1 (20 - 1 - 5) = b1 + 14 := by unfold ptrAdd; omega
  have r0 := registerFunction_eq m 0 30 t1 b0 (by simp [ht]) (by simp [hs]) (by omega)
  rw [e0] at r0
  simp only [Rtos.main, r0]
  have r1 := registerFunction_eq
    { m with
      f := t1
      mem := store (store m.mem (ptrAdd b0 (30 - 2)) (t1 % 65536 / 256))
        (ptrAdd b0 (30 - 1)) (t1 % 256)
      STACK_POINTERS := m.STACK_POINTERS.set 0 (b0 + 24) } 1 20 t2 b1
    (by simp [ht]) (by simp [hs]) (by simp [hl])
  rw [e1] at r1
  simp only [r1]
  exact ⟨_, rfl, by simp [hxy], rfl, rfl, rfl, rfl, rfl⟩

/-- C5: `RegisterFunction(i, stack_size)` sets the saved stack pointer of task
`i` to `STACKS[i] + stack_size - 1 - 5` (in 16-bit pointer arithmetic; the
plain sum when it is an address), and `main` of `rtos.c`, with stacks of 30
and 20 bytes, leaves the saved pointers at offsets 24 and 14 from the stack
bases. -/
theorem C5_saved_sp (m : Machine) (i : Nat) (stack_size : Int) (entry base : Nat)
    (he : m.TASKS[i]? = some entry) (hb : m.STACKS[i]? = some base)
    (hi : i < m.STACK_POINTERS.length) :
    (∃ m1 p, RegisterFunction m i stack_size = some m1 ∧ m1.STACK_POINTERS[i]? = some p ∧
      (p : Int) = ((base : Int) + stack_size - 1 - 5) % 65536 ∧
      (0 ≤ (base : Int) + stack_size - 1 - 5 → (base : Int) + stack_size - 1 - 5 < 65536 →
        (p : Int) = (base : Int) + stack_size - 1 - 5)) ∧
    (∀ (t1 t2 b0 b1 : Nat), m.TASKS = [t1, t2] → m.STACKS = [b0, b1] →
      m.STACK_POINTERS.length = 2 → b0 + 30 ≤ 65536 → b1 + 20 ≤ 65536 →
      ∃ m0, Rtos.main m = some m0 ∧ m0.STACK_POINTERS = [b0 + 24, b1 + 14]) := by
  constructor
  · have hreg := registerFunction_eq m i stack_size entry base he hb hi
    refine ⟨_, ptrAdd base (stack_size - 1 - 5), hreg, by simp [List.getElem?_set_self hi],
      ?_, ?_⟩
    · unfold ptrAdd
      have e : (base : Int) + (stack_size - 1 - 5) = (base : Int) + stack_size - 1 - 5 := by ring
      rw [e]
      exact Int.toNat_of_nonneg (Int.emod_nonneg _ (by decide))
    · intro h0 h1
      unfold ptrAdd
      omega
  · intro t1 t2 b0 b1 ht hs hl h0 h1
    obtain ⟨m0, hm0, hsp, -⟩ := main_eq m t1 t2 b0 b1 ht hs hl h0 h1
    exact ⟨m0, hm0, hsp⟩

/-- C5 at a concrete input: task 1 of the reference program, on its 30-byte stack. -/
theorem C5_saved_sp_witness :
    (refMachine.TASKS[0]? = some 0x8000 ∧ refMachine.STACKS[0]? = some 0x0100 ∧
      0 < refMachine.STACK_POINTERS.length) ∧
    ((∃ (m1 : Machine) (p : Nat), RegisterFunction refMachine 0 30 = some m1 ∧ m1.STACK_POINTERS[0]? = some p ∧
      (p : Int) = (((0x0100 : Nat) : Int) + 30 - 1 - 5) % 65536 ∧
      (0 ≤ ((0x0100 : Nat) : Int) + 30 - 1 - 5 → ((0x0100 : Nat) : Int) + 30 - 1 - 5 < 65536 →
        (p : Int) = ((0x0100 : Nat) : Int) + 30 - 1 - 5)) ∧
    (∀ (t1 t2 b0 b1 : Nat), refMachine.TASKS = [t1, t2] → refMachine.STACKS = [b0, b1] →
      refMachine.STACK_POINTERS.length = 2 → b0 + 30 ≤ 65536 → b1 + 20 ≤ 65536 →
      ∃ m0, Rtos.main refMachine = some m0 ∧ m0.STACK_POINTERS = [b0 + 24, b1 + 14])) :=
  ⟨⟨rfl, rfl, by decide⟩, C5_saved_sp refMachine 0 30 0x8000 0x0100 rfl rfl (by decide)⟩

/-! ## The minimum stack size -/

/-- C6: six bytes is the minimum stack size. With the stack region inside the
16-bit address space: for `stack_size ≥ 6` the two bytes `RegisterFunction`
writes are the last two bytes of the region, the saved pointer lies in
`[base, base + stack_size)`, and it is the base exactly at size 6; for
`stack_size < 6` the saved pointer is outside the region, and below the base
whenever `base + stack_size - 6` is an address (it does not wrap below 0). -/
theorem C6_minimum_stack (m : Machine) (i : Nat) (stack_size : Int) (entry base : Nat)
    (he : m.TASKS[i]? = some entry) (hb : m.STACKS[i]? = some base)
    (hi : i < m.STACK_POINTERS.length) (hfit : (base : Int) + stack_size ≤ 65536) :
    ∃ m1 p a2 a1, RegisterFunction m i stack_size = some m1 ∧
      m1.STACK_POINTERS[i]? = some p ∧
      m1.mem = store (store m.mem a2 (entry % 65536 / 256)) a1 (entry % 256) ∧
      (6 ≤ stack_size →
        ((base : Int) ≤ a2 ∧ (a2 : Int) < base + stack_size) ∧
        ((base : Int) ≤ a1 ∧ (a1 : Int) < base + stack_size) ∧
        ((base : Int) ≤ p ∧ (p : Int) < base + stack_size) ∧
        (stack_size = 6 ↔ p = base)) ∧
      (stack_size < 6 →
        ¬ ((base : Int) ≤ p ∧ (p : Int) < base + stack_size) ∧
        (6 ≤ (base : Int) + stack_size → p < base)) := by
  have hreg := registerFunction_eq m i stack_size entry base he hb hi
  refine ⟨_, ptrAdd base (stack_size - 1 - 5), ptrAdd base (stack_size - 2),
    ptrAdd base (stack_size - 1), hreg, by simp [List.getElem?_set_self hi], rfl, ?_, ?_⟩
  · intro h6
    unfold ptrAdd
    omega
  · intro h6
    unfold ptrAdd
    omega

/-- C6 at a concrete input: the six-byte stack `function2_stack` of `rtos_rti.c`. -/
theorem C6_minimum_stack_witness :
    ((boot [0x8000, 0x8040] [0x0100, 0x010A] []).TASKS[1]? = some 0x8040 ∧
      (boot [0x8000, 0x8040] [0x0100, 0x010A] []).STACKS[1]? = some 0x010A ∧
      1 < (boot [0x8000, 0x8040] [0x0100, 0x010A] []).STACK_POINTERS.length ∧
      ((0x010A : Nat) : Int) + 6 ≤ 65536) ∧
    ∃ (m1 : Machine) (p a2 a1 : Nat), RegisterFunction (boot [0x8000, 0x8040] [0x0100, 0x010A] []) 1 6 = some m1 ∧
      m1.STACK_POINTERS[1]? = some p ∧
      m1.mem = store (store (boot [0x8000, 0x8040] [0x0100, 0x010A] []).mem a2
        (0x8040 % 65536 / 256)) a1 (0x8040 % 256) ∧
      ((6 : Int) ≤ 6 →
        ((((0x010A : Nat) : Int) ≤ a2 ∧ (a2 : Int) < (0x010A : Nat) + 6) ∧
        (((0x010A : Nat) : Int) ≤ a1 ∧ (a1 : Int) < (0x010A : Nat) + 6) ∧
        (((0x010A : Nat) : Int) ≤ p ∧ (p : Int) < (0x010A : Nat) + 6) ∧
        ((6 : Int) = 6 ↔ p = 0x010A))) ∧
      ((6 : Int) < 6 →
        ¬ (((0x010A : Nat) : Int) ≤ p ∧ (p : Int) < (0x010A : Nat) + 6) ∧
        (6 ≤ ((0x010A : Nat) : Int) + 6 → p < 0x010A)) :=
  ⟨⟨rfl, rfl, by decide, by decide⟩,
   C6_minimum_stack (boot [0x8000, 0x8040] [0x0100, 0x010A] []) 1 6 0x8040 0x010A rfl rfl
     (by decide) (by decide)⟩

/-! ## Stores to the table -/

/-- The pointer `tsx` captures is `SP + 1`. -/
theorem hx_tsx_eq (m : Machine) : hx (tsx m) = (m.SP + 1) % 65536 := by
  simp only [hx, tsx]
  omega

/-- C7: a switch made while a task is running writes exactly one saved
pointer. For every variant and every well-formed machine with
`current_task ≠ -1`, the switch succeeds, makes exactly one store to
`STACK_POINTERS`, at index `current_task`, of the pointer `tsx` captured on
entry (`SP + 1`), and every other entry of the table is unchanged. -/
theorem C7_one_write (v : Variant) (m : Machine) (hm : TableOK v m)
    (hc : m.current_task ≠ -1) :
    ∃ m1, switch v m = some m1 ∧
      m1.spStores = m.spStores ++ [(m.current_task.toNat, hx (tsx m))] ∧
      m1.STACK_POINTERS.length = m.STACK_POINTERS.length ∧
      m1.STACK_POINTERS[m.current_task.toNat]? = some (hx (tsx m)) ∧
      hx (tsx m) = (m.SP + 1) % 65536 ∧
      ∀ j, j ≠ m.current_task.toNat → m1.STACK_POINTERS[j]? = m.STACK_POINTERS[j]? := by
  obtain ⟨m1, hs, r⟩ := switch_rel v m hm
  have ht := r.table_eq
  have hst := r.stores_eq
  rw [if_neg hc] at ht hst
  have hlt : m.current_task.toNat < m.STACK_POINTERS.length := by
    have h1 := hm.2.2.1
    have h2 := hm.2.2.2.2
    omega
  refine ⟨m1, hs, by rw [hst, hx_tsx_eq], by rw [ht, List.length_set], ?_, hx_tsx_eq m, ?_⟩
  · rw [ht, hx_tsx_eq, List.getElem?_set_self hlt]
  · intro j hj
    rw [ht, List.getElem?_set_ne (Ne.symm hj)]

/-- C7 at a concrete input: the second timer interrupt of the reference program. -/
theorem C7_one_write_witness :
    (TableOK Variant.fixedTick refRunning ∧ refRunning.current_task ≠ -1) ∧
    ∃ (m1 : Machine), switch Variant.fixedTick refRunning = some m1 ∧
      m1.spStores = refRunning.spStores ++ [(refRunning.current_task.toNat, hx (tsx refRunning))] ∧
      m1.STACK_POINTERS.length = refRunning.STACK_POINTERS.length ∧
      m1.STACK_POINTERS[refRunning.current_task.toNat]? = some (hx (tsx refRunning)) ∧
      hx (tsx refRunning) = (refRunning.SP + 1) % 65536 ∧
      ∀ j, j ≠ refRunning.current_task.toNat →
        m1.STACK_POINTERS[j]? = refRunning.STACK_POINTERS[j]? :=
  ⟨⟨by decide, by decide⟩, C7_one_write Variant.fixedTick refRunning (by decide) (by decide)⟩

/-! ## The sentinel guard -/

/-- From the sentinel the selection picks task 0. -/
theorem nextIndex_sentinel (N : Nat) : nextIndex N (-1) = 0 := by
  unfold nextIndex toUInt16 toSChar
  split
  · rfl
  · omega

/-- C8: the sentinel guard. For every variant, a switch from the sentinel
state of a well-formed machine succeeds, makes no store to `STACK_POINTERS`
(the table is identical before and after), sets `current_task` to 0 and
installs task 0's saved pointer (`SP = STACK_POINTERS[0] - 1`); the stack
pointer captured on entry is discarded: whatever it is, the table, the
stores, `current_task` and the installed stack pointer are the same. -/
theorem C8_sentinel_guard (v : Variant) (m : Machine) (hm : TableOK v m)
    (hc : m.current_task = -1) :
    ∃ m1 p, switch v m = some m1 ∧
      m1.STACK_POINTERS = m.STACK_POINTERS ∧ m1.spStores = m.spStores ∧
      m1.current_task = 0 ∧
      m.STACK_POINTERS[0]? = some p ∧ m1.SP = (txs (ldhx m p)).SP ∧
      m1.SP = (p % 65536 + 65535) % 65536 ∧
      ∀ sp, ∃ m2, switch v { m with SP := sp } = some m2 ∧
        m2.STACK_POINTERS = m1.STACK_POINTERS ∧ m2.spStores = m1.spStores ∧
        m2.current_task = m1.current_task ∧ m2.SP = m1.SP := by
  obtain ⟨m1, hs, r⟩ := switch_rel v m hm
  have hcur : m1.current_task = 0 := by
    rw [r.cur_eq, hc]; exact nextIndex_sentinel _
  obtain ⟨p, hp, hsp⟩ := r.sp_eq
  rw [hcur] at hp
  have hp0 : m.STACK_POINTERS[0]? = some p := by
    simpa [readAt] using hp
  have ht : m1.STACK_POINTERS = m.STACK_POINTERS := by rw [r.table_eq, if_pos hc]
  have hst : m1.spStores = m.spStores := by rw [r.stores_eq, if_pos hc]
  refine ⟨m1, p, hs, ht, hst, hcur, hp0, by rw [hsp, (install_sp m p).1], hsp, ?_⟩
  intro sp
  obtain ⟨m2, hs2, r2⟩ := switch_rel v _ (tableOK_setSP hm sp)
  have hcur2 : m2.current_task = 0 := by
    rw [r2.cur_eq]
    show nextIndex m.TASKS.length m.current_task = 0
    rw [hc]; exact nextIndex_sentinel _
  obtain ⟨q, hq, hsq⟩ := r2.sp_eq
  rw [hcur2] at hq
  have hq0 : m.STACK_POINTERS[0]? = some q := by
    simpa [readAt] using hq
  have hqp : q = p := by
    rw [hq0] at hp0; exact Option.some.inj hp0
  have ht2 : m2.STACK_POINTERS = m.STACK_POINTERS := by
    have := r2.table_eq
    simpa [hc] using this
  have hst2 : m2.spStores = m.spStores := by
    have := r2.stores_eq
    simpa [hc] using this
  exact ⟨m2, hs2, by rw [ht2, ht], by rw [hst2, hst], by rw [hcur2, hcur],
    by rw [hsq, hsp, hqp]⟩

/-- C8 at a concrete input: the first switch of the weighted reference program. -/
theorem C8_sentinel_guard_witness :
    (TableOK Variant.weighted refRegistered ∧ refRegistered.current_task = -1) ∧
    ∃ (m1 : Machine) (p : Nat), switch Variant.weighted refRegistered = some m1 ∧
      m1.STACK_POINTERS = refRegistered.STACK_POINTERS ∧
      m1.spStores = refRegistered.spStores ∧
      m1.current_task = 0 ∧
      refRegistered.STACK_POINTERS[0]? = some p ∧ m1.SP = (txs (ldhx refRegistered p)).SP ∧
      m1.SP = (p % 65536 + 65535) % 65536 ∧
      ∀ sp, ∃ m2, switch Variant.weighted { refRegistered with SP := sp } = some m2 ∧
        m2.STACK_POINTERS = m1.STACK_POINTERS ∧ m2.spStores = m1.spStores ∧
        m2.current_task = m1.current_task ∧ m2.SP = m1.SP :=
  ⟨⟨by decide, by decide⟩, C8_sentinel_guard Variant.weighted refRegistered (by decide) (by decide)⟩

/-! ## The reference scenario -/

/-- The first two switches of `rtos.c` after `main`. -/
theorem first_two_switches (m : Machine) (t1 t2 b0 b1 sp1 sp2 : Nat)
    (ht : m.TASKS = [t1, t2]) (hs : m.STACKS = [b0, b1])
    (hl : m.STACK_POINTERS.length = 2) (hc : m.current_task = -1)
    (hst : m.spStores = []) (h0 : b0 + 30 ≤ 65536) (h1 : b1 + 20 ≤ 65536) :
    ∃ m0 ma mb, Rtos.main m = some m0 ∧ m0.STACK_POINTERS = [b0 + 24, b1 + 14] ∧
      run Variant.fixedTick m0 [sp1] = some ma ∧ ma.current_task = 0 ∧
      ma.spStores = [] ∧ ma.STACK_POINTERS = [b0 + 24, b1 + 14] ∧
      run Variant.fixedTick m0 [sp1, sp2] = some mb ∧ mb.current_task = 1 ∧
      mb.spStores = [(0, (sp2 + 1) % 65536)] ∧
      mb.STACK_POINTERS = [(sp2 + 1) % 65536, b1 + 14] := by
  obtain ⟨m0, hmain, hsp0, ht0, -, -, hc0, hst0⟩ := main_eq m t1 t2 b0 b1 ht hs hl h0 h1
  have hok0 : TableOK Variant.fixedTick m0 := by
    refine ⟨?_, ?_, ?_, ?_, ?_, ?_⟩
    · rw [ht0, ht]; simp
    · rw [ht0, ht]; simp
    · rw [ht0, ht, hsp0]; rfl
    · intro h; cases h
    · rw [hc0, hc]
    · rw [hc0, hc, ht0, ht]; simp
  obtain ⟨ma, hsa, ra⟩ := switch_rel Variant.fixedTick _ (tableOK_setSP hok0 sp1)
  have hoka := ra.tableOK (tableOK_setSP hok0 sp1)
  have hca : ma.current_task = 0 := by
    rw [ra.cur_eq]
    show nextIndex m0.TASKS.length m0.current_task = 0
    rw [hc0, hc]; exact nextIndex_sentinel _
  have hta : ma.STACK_POINTERS = [b0 + 24, b1 + 14] := by
    have := ra.table_eq
    simpa [hc0, hc, hsp0] using this
  have hsta : ma.spStores = [] := by
    have := ra.stores_eq
    simpa [hc0, hc, hst0, hst] using this
  obtain ⟨mb, hsb, rb⟩ := switch_rel Variant.fixedTick _ (tableOK_setSP hoka sp2)
  have hcb : mb.current_task = 1 := by
    rw [rb.cur_eq]
    show nextIndex ma.TASKS.length ma.current_task = 1
    rw [hca, ra.tasks_eq]
    show nextIndex m0.TASKS.length 0 = 1
    rw [ht0, ht]
    simp only [List.length_cons, List.length_nil]
    decide
  have htb : mb.STACK_POINTERS = [(sp2 + 1) % 65536, b1 + 14] := by
    have := rb.table_eq
    simpa [hca, hta] using this
  have hstb : mb.spStores = [(0, (sp2 + 1) % 65536)] := by
    have := rb.stores_eq
    simpa [hca, hsta] using this
  exact ⟨m0, ma, mb, hmain, hsp0, by simp only [run, hsa], hca, hsta, hta,
    by simp only [run, hsa, hsb], hcb, hstb, htb⟩

/-- C9 (amended): the concrete scenario of `rtos.c`. With two tasks on stacks
of 30 and 20 bytes registered by `main` in the order 0, 1: after the first
switch from the sentinel state (the one that makes `current_task = 0`) the
scheduler has written no saved pointer, and both still hold the values of
`RegisterFunction`, base + 24 and base + 14; after the second switch (the one
that makes `current_task = 1`) it has written task 0's saved pointer exactly
once and never task 1's, which still is its stack base + 14. -/
theorem C9_scenario (m : Machine) (t1 t2 b0 b1 sp1 sp2 : Nat)
    (ht : m.TASKS = [t1, t2]) (hs : m.STACKS = [b0, b1])
    (hl : m.STACK_POINTERS.length = 2) (hc : m.current_task = -1)
    (hst : m.spStores = []) (h0 : b0 + 30 ≤ 65536) (h1 : b1 + 20 ≤ 65536) :
    ∃ m0 ma mb, Rtos.main m = some m0 ∧
      run Variant.fixedTick m0 [sp1] = some ma ∧ ma.current_task = 0 ∧
      storesTo ma 0 = 0 ∧ storesTo ma 1 = 0 ∧
      ma.STACK_POINTERS = [b0 + 24, b1 + 14] ∧
      run Variant.fixedTick m0 [sp1, sp2] = some mb ∧ mb.current_task = 1 ∧
      storesTo mb 0 = 1 ∧ storesTo mb 1 = 0 ∧
      mb.STACK_POINTERS[0]? = some ((sp2 + 1) % 65536) ∧
      mb.STACK_POINTERS[1]? = some (b1 + 14) := by
  obtain ⟨m0, ma, mb, hmain, -, hra, hca, hsta, hta, hrb, hcb, hstb, htb⟩ :=
    first_two_switches m t1 t2 b0 b1 sp1 sp2 ht hs hl hc hst h0 h1
  refine ⟨m0, ma, mb, hmain, hra, hca, ?_, ?_, hta, hrb, hcb, ?_, ?_, ?_, ?_⟩
  · simp [storesTo, hsta]
  · simp [storesTo, hsta]
  · simp [storesTo, hstb]
  · simp [storesTo, hstb]
  · simp [htb]
  · simp [htb]

/-- C9 at a concrete input: the reference program with the stack pointers the two
interrupts find. -/
theorem C9_scenario_witness :
    (refMachine.TASKS = [0x8000, 0x8040] ∧ refMachine.STACKS = [0x0100, 0x011E] ∧
      refMachine.STACK_POINTERS.length = 2 ∧ refMachine.current_task = -1 ∧
      refMachine.spStores = [] ∧ 0x0100 + 30 ≤ 65536 ∧ 0x011E + 20 ≤ 65536) ∧
    ∃ (m0 ma mb : Machine), Rtos.main refMachine = some m0 ∧
      run Variant.fixedTick m0 [0x00F9] = some ma ∧ ma.current_task = 0 ∧
      storesTo ma 0 = 0 ∧ storesTo ma 1 = 0 ∧
      ma.STACK_POINTERS = [0x0100 + 24, 0x011E + 14] ∧
      run Variant.fixedTick m0 [0x00F9, 0x0117] = some mb ∧ mb.current_task = 1 ∧
      storesTo mb 0 = 1 ∧ storesTo mb 1 = 0 ∧
      mb.STACK_POINTERS[0]? = some ((0x0117 + 1) % 65536) ∧
      mb.STACK_POINTERS[1]? = some (0x011E + 14) :=
  ⟨⟨rfl, rfl, rfl, rfl, rfl, by decide, by decide⟩,
   C9_scenario refMachine 0x8000 0x8040 0x0100 0x011E 0x00F9 0x0117 rfl rfl rfl rfl rfl
     (by decide) (by decide)⟩

/-- C9 as stated fails: after switch 1 of the reference program (the switch
that makes `current_task = 0`) the scheduler has written task 0's saved
pointer zero times, not once. -/
theorem C9_counterexample :
    Rtos.main refMachine = some refRegistered ∧
    ∃ m1, run Variant.fixedTick refRegistered [0x00F9] = some m1 ∧
      m1.current_task = 0 ∧ storesTo m1 0 = 0 ∧ storesTo m1 0 ≠ 1 := by
  obtain ⟨m0, ma, -, hmain, -, hra, hca, hsta, -⟩ :=
    first_two_switches refMachine 0x8000 0x8040 0x0100 0x011E 0x00F9 0x0117 rfl rfl rfl rfl rfl
      (by decide) (by decide)
  have hreg : refRegistered = m0 := by
    unfold refRegistered; rw [hmain]; rfl
  rw [hreg]
  have h0 : storesTo ma 0 = 0 := by simp [storesTo, hsta]
  exact ⟨hmain, ma, hra, hca, h0, by rw [h0]; decide⟩

/-! ## Consecutive selections -/

/-- C10 (amended): no task runs twice in a row when there are at least two
tasks. For every variant and every well-formed machine with `N ≥ 2` tasks, a
switch succeeds and the task it selects differs from the task that was
running (and at the sentinel it selects task 0). -/
theorem C10_not_twice (v : Variant) (m : Machine) (hm : TableOK v m)
    (hN : 2 ≤ m.TASKS.length) :
    ∃ m1, switch v m = some m1 ∧ m1.current_task ≠ m.current_task ∧
      (m.current_task = -1 → m1.current_task = 0) := by
  obtain ⟨m1, hs, r⟩ := switch_rel v m hm
  refine ⟨m1, hs, by rw [r.cur_eq]; exact nextIndex_ne _ _ hN, ?_⟩
  intro hc
  rw [r.cur_eq, hc]
  exact nextIndex_sentinel _

/-- C10 as stated fails for a single task: after the first switch task 0 is
running, and the next switch selects task 0 again. -/
theorem C10_counterexample :
    TableOK Variant.fixedTick singleTask ∧ singleTask.TASKS.length = 1 ∧
    ∃ m1 m2, run Variant.fixedTick singleTask [0x00F9] = some m1 ∧
      m1.current_task = 0 ∧
      switch Variant.fixedTick { m1 with SP := 0x00FC } = some m2 ∧
      m2.current_task = m1.current_task := by
  have hok : TableOK Variant.fixedTick singleTask := by decide
  obtain ⟨m1, hs, r⟩ := switch_rel Variant.fixedTick _ (tableOK_setSP hok 0x00F9)
  have hok1 := r.tableOK (tableOK_setSP hok 0x00F9)
  have hc1 : m1.current_task = 0 := r.cur_eq
  obtain ⟨m2, hs2, r2⟩ := switch_rel Variant.fixedTick _ (tableOK_setSP hok1 0x00FC)
  have ht : m1.TASKS.length = 1 := by rw [r.tasks_eq]; rfl
  have hc2 : m2.current_task = 0 := by
    rw [r2.cur_eq]
    show nextIndex m1.TASKS.length m1.current_task = 0
    rw [ht, hc1]
    decide
  exact ⟨hok, rfl, m1, m2, by simp only [run, hs], hc1, hs2, by rw [hc2, hc1]⟩

/-- C10 at a concrete input: the second timer interrupt of the reference program
selects task 1 after task 0. -/
theorem C10_not_twice_witness :
    (TableOK Variant.fixedTick refRunning ∧ 2 ≤ refRunning.TASKS.length) ∧
    ∃ (m1 : Machine), switch Variant.fixedTick refRunning = some m1 ∧
      m1.current_task ≠ refRunning.current_task ∧
      (refRunning.current_task = -1 → m1.current_task = 0) :=
  ⟨⟨by decide, by decide⟩, C10_not_twice Variant.fixedTick refRunning (by decide) (by decide)⟩

/-! ## The compare register of the weighted variant -/

/-- `ScheduleNext` of `rtos_priority.c` advances `TPM1C0V` by the quantum of
the task it selects. -/
theorem priorityScheduleNext_timer (m : Machine) (h : TableOK Variant.weighted m) :
    ∃ m1 q, RtosPriority.ScheduleNext m = some m1 ∧ SwitchRel m m1 ∧
      readAt m.TIMES m1.current_task = some q ∧
      m1.TPM1C0V = (m.TPM1C0V + q) % 65536 := by
  obtain ⟨h1, h2, h3, h4, h5, h6⟩ := h
  have hr := nextIndex_range m.TASKS.length m.current_task h1 h2
  obtain ⟨p, hp⟩ := readAt_some m.STACK_POINTERS (nextIndex m.TASKS.length m.current_task)
    hr.1 (by rw [h3]; exact hr.2)
  obtain ⟨q, hq⟩ := readAt_some m.TIMES (nextIndex m.TASKS.length m.current_task)
    hr.1 (by rw [h4 rfl]; exact hr.2)
  obtain ⟨m1, hs, r⟩ := priorityScheduleNext_rel m ⟨h1, h2, h3, h4, h5, h6⟩
  refine ⟨m1, q, hs, r, by rw [r.cur_eq]; exact hq, ?_⟩
  have hn : (if toUInt16 (toSChar (m.current_task + 1)) ≥ m.TASKS.length then
      ({ m with next_task := 0 } : Machine)
      else { m with next_task := toSChar (m.current_task + 1) }) =
      { m with next_task := nextIndex m.TASKS.length m.current_task } := by
    unfold nextIndex; split <;> rfl
  have hw : m.current_task ≠ -1 → 0 ≤ m.current_task ∧
      m.current_task.toNat < m.STACK_POINTERS.length := by
    intro hne; omega
  simp only [RtosPriority.ScheduleNext, hn, hp, hq, tsx, txs, ldhx, hx, writeAt] at hs
  by_cases hc : m.current_task = -1
  · simp [hc] at hs
    rw [← hs]
  · simp [hc, hw hc] at hs
    rw [← hs]

/-- C12: every `ScheduleNext` call of the weighted variant on well-formed
tables succeeds and leaves `TPM1C0V` equal to its previous value plus
`TIMES[next_task]` modulo `2^16`, where `next_task` is the task switched in
(the new `current_task`), not the task switched out; on the first switch
from the sentinel state `next_task` is 0. -/
theorem C12_compare_register (m : Machine) (hm : TableOK Variant.weighted m) :
    ∃ m1 q, RtosPriority.ScheduleNext m = some m1 ∧
      m1.current_task = nextIndex m.TASKS.length m.current_task ∧
      readAt m.TIMES m1.current_task = some q ∧
      m1.TPM1C0V = (m.TPM1C0V + q) % 65536 ∧
      (m.current_task = -1 → m1.current_task = 0 ∧ m.TIMES[0]? = some q) := by
  obtain ⟨m1, q, hs, r, hq, ht⟩ := priorityScheduleNext_timer m hm
  refine ⟨m1, q, hs, r.cur_eq, hq, ht, ?_⟩
  intro hc
  have h0 : m1.current_task = 0 := by rw [r.cur_eq, hc]; exact nextIndex_sentinel _
  refine ⟨h0, ?_⟩
  rw [h0] at hq
  simpa [readAt] using hq

/-- C12 at a concrete input: the second switch of the weighted reference
program adds the quantum 1000 of task 1, not the 200 of task 0. -/
theorem C12_compare_register_witness :
    TableOK Variant.weighted refRunning ∧
    ∃ (m1 : Machine) (q : Nat), RtosPriority.ScheduleNext refRunning = some m1 ∧
      m1.current_task = nextIndex refRunning.TASKS.length refRunning.current_task ∧
      readAt refRunning.TIMES m1.current_task = some q ∧
      m1.TPM1C0V = (refRunning.TPM1C0V + q) % 65536 ∧
      (refRunning.current_task = -1 → m1.current_task = 0 ∧ refRunning.TIMES[0]? = some q) :=
  ⟨by decide, C12_compare_register refRunning (by decide)⟩

/-! ## The three scheduler cores -/

/-- `ScheduleNext` of `rtos_rti.c` neither reads nor writes `TPM1SC`. -/
theorem rti_flag_reg (m : Machine) (w : Nat) :
    RtosRti.ScheduleNext { m with TPM1SC := w } =
      (RtosRti.ScheduleNext m).map (fun m1 => { m1 with TPM1SC := w }) := by
  have hn : ∀ a : Nat, (if toUInt16 (toSChar (m.current_task + 1)) ≥ m.TASKS.length then
      ({ m with TPM1SC := a, next_task := 0 } : Machine)
      else { m with TPM1SC := a, next_task := toSChar (m.current_task + 1) }) =
      { m with TPM1SC := a, next_task := nextIndex m.TASKS.length m.current_task } := by
    intro a; unfold nextIndex; split <;> rfl
  have h1 := hn w
  have h2 := hn m.TPM1SC
  simp only [RtosRti.ScheduleNext, h1, h2, tsx, txs, ldhx, hx]
  cases readAt m.STACK_POINTERS (nextIndex m.TASKS.length m.current_task) with
  | none => rfl
  | some p =>
    simp only []
    by_cases hc : m.current_task = -1
    · simp [hc]
    · simp only [ne_eq, hc, not_false_eq_true, if_true]
      cases writeAt m.STACK_POINTERS m.current_task
          ((m.SP + 1) % 65536 / 256 * 256 + (m.SP + 1) % 65536 % 256) with
      | none => rfl
      | some t => rfl

/-- `ScheduleNext` of `rtos_rti.c` neither reads nor writes `TPM1C0V`. -/
theorem rti_compare_reg (m : Machine) (c : Nat) :
    RtosRti.ScheduleNext { m with TPM1C0V := c } =
      (RtosRti.ScheduleNext m).map (fun m1 => { m1 with TPM1C0V := c }) := by
  have hn : ∀ a : Nat, (if toUInt16 (toSChar (m.current_task + 1)) ≥ m.TASKS.length then
      ({ m with TPM1C0V := a, next_task := 0 } : Machine)
      else { m with TPM1C0V := a, next_task := toSChar (m.current_task + 1) }) =
      { m with TPM1C0V := a, next_task := nextIndex m.TASKS.length m.current_task } := by
    intro a; unfold nextIndex; split <;> rfl
  have h1 := hn c
  have h2 := hn m.TPM1C0V
  simp only [RtosRti.ScheduleNext, h1, h2, tsx, txs, ldhx, hx]
  cases readAt m.STACK_POINTERS (nextIndex m.TASKS.length m.current_task) with
  | none => rfl
  | some p =>
    simp only []
    by_cases hc : m.current_task = -1
    · simp [hc]
    · simp only [ne_eq, hc, not_false_eq_true, if_true]
      cases writeAt m.STACK_POINTERS m.current_task
          ((m.SP + 1) % 65536 / 256 * 256 + (m.SP + 1) % 65536 % 256) with
      | none => rfl
      | some t => rfl

/-- `TimerISR` of `rtos.c` is `ScheduleNext` of `rtos_rti.c` after the timer
flag is cleared. -/
theorem timerISR_eq_rti (m : Machine) :
    Rtos.TimerISR m =
      RtosRti.ScheduleNext { m with TPM1SC := (m.TPM1SC &&& 0xFF7F) % 256 } := rfl

/-- `ScheduleNext` of `rtos_priority.c` is `ScheduleNext` of `rtos_rti.c` after
the compare register is advanced by the quantum of the selected task. -/
theorem priority_eq_rti (m : Machine) (q : Nat)
    (hq : readAt m.TIMES (nextIndex m.TASKS.length m.current_task) = some q) :
    RtosPriority.ScheduleNext m =
      RtosRti.ScheduleNext { m with TPM1C0V := (m.TPM1C0V + q) % 65536 } := by
  have hn : ∀ b : Nat, (if toUInt16 (toSChar (m.current_task + 1)) ≥ m.TASKS.length then
      ({ m with TPM1C0V := b, next_task := 0 } : Machine)
      else { m with TPM1C0V := b, next_task := toSChar (m.current_task + 1) }) =
      { m with TPM1C0V := b, next_task := nextIndex m.TASKS.length m.current_task } := by
    intro b; unfold nextIndex; split <;> rfl
  have h1 := hn ((m.TPM1C0V + q) % 65536)
  have h2 := hn m.TPM1C0V
  simp only [RtosPriority.ScheduleNext, RtosRti.ScheduleNext, h1, h2, hq, tsx, txs, ldhx, hx]

/-- C17: the three scheduler cores are the same transition. For every machine
state (task table, `current_task`, incoming stack pointer) in which `TIMES`
has an entry `q` for the selected task: `TimerISR` of `rtos.c` is `ScheduleNext`
of `rtos_rti.c` with the timer flag of `TPM1SC` cleared, `ScheduleNext` of
`rtos_priority.c` is `ScheduleNext` of `rtos_rti.c` with `TPM1C0V` advanced by
`q`, and so the three produce the same `current_task`, the same
`STACK_POINTERS` and the same installed stack pointer (or all three fail on
an out-of-bounds table access). -/
theorem C17_same_transition (m : Machine) (q : Nat)
    (hq : readAt m.TIMES (nextIndex m.TASKS.length m.current_task) = some q) :
    Rtos.TimerISR m = (RtosRti.ScheduleNext m).map
      (fun m1 => { m1 with TPM1SC := (m.TPM1SC &&& 0xFF7F) % 256 }) ∧
    RtosPriority.ScheduleNext m = (RtosRti.ScheduleNext m).map
      (fun m1 => { m1 with TPM1C0V := (m.TPM1C0V + q) % 65536 }) ∧
    (Rtos.TimerISR m).map core = (RtosRti.ScheduleNext m).map core ∧
    (RtosPriority.ScheduleNext m).map core = (RtosRti.ScheduleNext m).map core := by
  have e1 : Rtos.TimerISR m = (RtosRti.ScheduleNext m).map
      (fun m1 => { m1 with TPM1SC := (m.TPM1SC &&& 0xFF7F) % 256 }) := by
    rw [timerISR_eq_rti]
    exact rti_flag_reg m _
  have e2 : RtosPriority.ScheduleNext m = (RtosRti.ScheduleNext m).map
      (fun m1 => { m1 with TPM1C0V := (m.TPM1C0V + q) % 65536 }) := by
    rw [priority_eq_rti m q hq]
    exact rti_compare_reg m _
  refine ⟨e1, e2, ?_, ?_⟩
  · rw [e1, Option.map_map]; rfl
  · rw [e2, Option.map_map]; rfl

/-- C17 at a concrete input: the second switch of the reference program. -/
theorem C17_same_transition_witness :
    readAt refRunning.TIMES (nextIndex refRunning.TASKS.length refRunning.current_task)
      = some 1000 ∧
    (Rtos.TimerISR refRunning = (RtosRti.ScheduleNext refRunning).map
      (fun m1 => { m1 with TPM1SC := (refRunning.TPM1SC &&& 0xFF7F) % 256 }) ∧
    RtosPriority.ScheduleNext refRunning = (RtosRti.ScheduleNext refRunning).map
      (fun m1 => { m1 with TPM1C0V := (refRunning.TPM1C0V + 1000) % 65536 }) ∧
    (Rtos.TimerISR refRunning).map core = (RtosRti.ScheduleNext refRunning).map core ∧
    (RtosPriority.ScheduleNext refRunning).map core =
      (RtosRti.ScheduleNext refRunning).map core) :=
  ⟨by decide, C17_same_transition refRunning 1000 (by decide)⟩

/-! ## The frame of `RegisterFunction` -/

/-- C18: `RegisterFunction(i, stack_size)` changes only the two bytes
`STACKS[i][stack_size-2]`, `STACKS[i][stack_size-1]` and `STACK_POINTERS[i]`
(and its own static `f`): every other byte of RAM, so every other byte of the
stack of task `i` (among them the `H`, `CCR`, `A`, `X` slots of the frame) and
every byte of another task's stack, every other saved pointer, the task
tables, the registers and `current_task` keep their values. For
`stack_size ≥ 2` with the region inside the address space the two bytes are
the bytes `stack_size-2` and `stack_size-1` of the region. -/
theorem C18_register_frame (m : Machine) (i : Nat) (stack_size : Int) (entry base : Nat)
    (he : m.TASKS[i]? = some entry) (hb : m.STACKS[i]? = some base)
    (hi : i < m.STACK_POINTERS.length) :
    ∃ m1, RegisterFunction m i stack_size = some m1 ∧
      (∀ a, a ≠ ptrAdd base (stack_size - 2) → a ≠ ptrAdd base (stack_size - 1) →
        m1.mem a = m.mem a) ∧
      (∀ j, j ≠ i → m1.STACK_POINTERS[j]? = m.STACK_POINTERS[j]?) ∧
      m1.STACK_POINTERS.length = m.STACK_POINTERS.length ∧
      m1.current_task = m.current_task ∧ m1.next_task = m.next_task ∧
      m1.TASKS = m.TASKS ∧ m1.STACKS = m.STACKS ∧ m1.TIMES = m.TIMES ∧
      m1.spStores = m.spStores ∧
      (m1.A = m.A ∧ m1.H = m.H ∧ m1.X = m.X ∧ m1.SP = m.SP ∧ m1.PC = m.PC ∧ m1.CCR = m.CCR) ∧
      (2 ≤ stack_size → (base : Int) + stack_size ≤ 65536 →
        (ptrAdd base (stack_size - 2) : Int) = base + stack_size - 2 ∧
        (ptrAdd base (stack_size - 1) : Int) = base + stack_size - 1) ∧
      (6 ≤ stack_size → (base : Int) + stack_size ≤ 65536 →
        ∀ k : Nat, 3 ≤ k → k ≤ 6 →
          m1.mem (ptrAdd base (stack_size - k)) = m.mem (ptrAdd base (stack_size - k))) := by
  have hreg := registerFunction_eq m i stack_size entry base he hb hi
  refine ⟨_, hreg, ?_, ?_, by simp, rfl, rfl, rfl, rfl, rfl, rfl,
    ⟨rfl, rfl, rfl, rfl, rfl, rfl⟩, ?_, ?_⟩
  · intro a h2 h1
    simp [store, h1, h2]
  · intro j hj
    simp only []
    rw [List.getElem?_set_ne (Ne.symm hj)]
  · intro h2 hfit
    unfold ptrAdd
    omega
  · intro h6 hfit k hk3 hk6
    have n2 : ptrAdd base (stack_size - k) ≠ ptrAdd base (stack_size - 2) := by
      unfold ptrAdd; omega
    have n1 : ptrAdd base (stack_size - k) ≠ ptrAdd base (stack_size - 1) := by
      unfold ptrAdd; omega
    simp [store, n1, n2]

/-- C18 at a concrete input: registering task 2 of the reference program. -/
theorem C18_register_frame_witness :
    (refMachine.TASKS[1]? = some 0x8040 ∧ refMachine.STACKS[1]? = some 0x011E ∧
      1 < refMachine.STACK_POINTERS.length) ∧
    ∃ (m1 : Machine), RegisterFunction refMachine 1 20 = some m1 ∧
      (∀ a, a ≠ ptrAdd 0x011E (20 - 2) → a ≠ ptrAdd 0x011E (20 - 1) →
        m1.mem a = refMachine.mem a) ∧
      (∀ j, j ≠ 1 → m1.STACK_POINTERS[j]? = refMachine.STACK_POINTERS[j]?) ∧
      m1.STACK_POINTERS.length = refMachine.STACK_POINTERS.length ∧
      m1.current_task = refMachine.current_task ∧ m1.next_task = refMachine.next_task ∧
      m1.TASKS = refMachine.TASKS ∧ m1.STACKS = refMachine.STACKS ∧
      m1.TIMES = refMachine.TIMES ∧ m1.spStores = refMachine.spStores ∧
      (m1.A = refMachine.A ∧ m1.H = refMachine.H ∧ m1.X = refMachine.X ∧
        m1.SP = refMachine.SP ∧ m1.PC = refMachine.PC ∧ m1.CCR = refMachine.CCR) ∧
      ((2 : Int) ≤ 20 → ((0x011E : Nat) : Int) + 20 ≤ 65536 →
        (ptrAdd 0x011E (20 - 2) : Int) = (0x011E : Nat) + 20 - 2 ∧
        (ptrAdd 0x011E (20 - 1) : Int) = (0x011E : Nat) + 20 - 1) ∧
      ((6 : Int) ≤ 20 → ((0x011E : Nat) : Int) + 20 ≤ 65536 →
        ∀ k : Nat, 3 ≤ k → k ≤ 6 →
          m1.mem (ptrAdd 0x011E (20 - k)) = refMachine.mem (ptrAdd 0x011E (20 - k))) :=
  ⟨⟨rfl, rfl, by decide⟩, C18_register_frame refMachine 1 20 0x8040 0x011E rfl rfl (by decide)⟩

/-! ## A single task -/

/-- With one task the selection always picks task 0. -/
theorem nextIndex_single (cur : Int) : nextIndex 1 cur = 0 := by
  unfold nextIndex toUInt16 toSChar
  split
  · rfl
  · omega

/-- C19: the single-task table. For every variant and every well-formed
machine with exactly one task that is running (`current_task = 0`), a switch
selects task 0 again and installs `p - 1`, where `p` is the saved pointer the
table held before this switch, whatever stack pointer this switch captures;
the captured pointer `SP + 1` is only stored in the table, for the next
switch. So, in a run from the sentinel state, the second switch installs the
boot (registration) entry and every later switch installs the stack pointer
in effect at the switch before it. -/
theorem C19_single_task (v : Variant) (m : Machine) (hm : TableOK v m)
    (h1 : m.TASKS.length = 1) (hc : m.current_task = 0) :
    ∃ m1 p, switch v m = some m1 ∧ m1.current_task = 0 ∧
      m.STACK_POINTERS[0]? = some p ∧
      m1.SP = (p % 65536 + 65535) % 65536 ∧
      m1.STACK_POINTERS[0]? = some ((m.SP + 1) % 65536) ∧
      (∀ sp, ∃ m2, switch v { m with SP := sp } = some m2 ∧ m2.SP = m1.SP) ∧
      (∀ sp0 m0, m0.current_task = -1 → TableOK v m0 → m0.TASKS.length = 1 →
        run v m0 [sp0] = some m → m.STACK_POINTERS = m0.STACK_POINTERS) ∧
      (∀ sp2 : Nat, m.SP < 65536 →
        ∃ m2 m3, switch v m = some m2 ∧ switch v { m2 with SP := sp2 } = some m3 ∧
          m3.current_task = 0 ∧ m3.SP = m.SP) := by
  obtain ⟨m1, hs, r⟩ := switch_rel v m hm
  have hcur : m1.current_task = 0 := by rw [r.cur_eq, h1]; exact nextIndex_single _
  obtain ⟨p, hp, hsp⟩ := r.sp_eq
  rw [hcur] at hp
  have hp0 : m.STACK_POINTERS[0]? = some p := by simpa [readAt] using hp
  have hne : ¬ m.current_task = -1 := by rw [hc]; decide
  have hlen : 0 < m.STACK_POINTERS.length := by
    have := hm.2.2.1
    omega
  have ht : m1.STACK_POINTERS = m.STACK_POINTERS.set 0 ((m.SP + 1) % 65536) := by
    have := r.table_eq
    rw [if_neg hne, hc] at this
    exact this
  have ht0 : m1.STACK_POINTERS[0]? = some ((m.SP + 1) % 65536) := by
    rw [ht, List.getElem?_set_self hlen]
  refine ⟨m1, p, hs, hcur, hp0, hsp, ht0, ?_, ?_, ?_⟩
  · intro sp
    obtain ⟨m2, hs2, r2⟩ := switch_rel v _ (tableOK_setSP hm sp)
    have hcur2 : m2.current_task = 0 := by
      rw [r2.cur_eq]
      show nextIndex m.TASKS.length m.current_task = 0
      rw [h1]; exact nextIndex_single _
    obtain ⟨q, hq, hsq⟩ := r2.sp_eq
    rw [hcur2] at hq
    have hq0 : m.STACK_POINTERS[0]? = some q := by simpa [readAt] using hq
    have hqp : q = p := by rw [hq0] at hp0; exact Option.some.inj hp0
    exact ⟨m2, hs2, by rw [hsq, hsp, hqp]⟩
  · intro sp0 m0 hc0 hm0 _ hrun
    obtain ⟨ma, hsa, ra⟩ := switch_rel v _ (tableOK_setSP hm0 sp0)
    simp only [run, hsa, Option.some.injEq] at hrun
    subst hrun
    have := ra.table_eq
    simpa [hc0] using this
  · intro sp2 h16
    have hm1 := r.tableOK hm
    obtain ⟨m3, hs3, r3⟩ := switch_rel v _ (tableOK_setSP hm1 sp2)
    have hcur3 : m3.current_task = 0 := by
      rw [r3.cur_eq]
      show nextIndex m1.TASKS.length m1.current_task = 0
      rw [r.tasks_eq, h1]; exact nextIndex_single _
    obtain ⟨q, hq, hsq⟩ := r3.sp_eq
    rw [hcur3] at hq
    have hq0 : m1.STACK_POINTERS[0]? = some q := by simpa [readAt] using hq
    have hqv : q = (m.SP + 1) % 65536 := by
      rw [hq0] at ht0; exact Option.some.inj ht0
    refine ⟨m1, m3, hs, hs3, hcur3, ?_⟩
    rw [hsq, hqv]
    omega

/-- C19 at a concrete input: the single-task program at its second timer
interrupt. -/
theorem C19_single_task_witness :
    (TableOK Variant.fixedTick singleRunning ∧ singleRunning.TASKS.length = 1 ∧
      singleRunning.current_task = 0) ∧
    ∃ (m1 : Machine) (p : Nat), switch Variant.fixedTick singleRunning = some m1 ∧
      m1.current_task = 0 ∧
      singleRunning.STACK_POINTERS[0]? = some p ∧
      m1.SP = (p % 65536 + 65535) % 65536 ∧
      m1.STACK_POINTERS[0]? = some ((singleRunning.SP + 1) % 65536) ∧
      (∀ sp, ∃ m2, switch Variant.fixedTick { singleRunning with SP := sp } = some m2 ∧
        m2.SP = m1.SP) ∧
      (∀ sp0 m0, m0.current_task = -1 → TableOK Variant.fixedTick m0 → m0.TASKS.length = 1 →
        run Variant.fixedTick m0 [sp0] = some singleRunning →
        singleRunning.STACK_POINTERS = m0.STACK_POINTERS) ∧
      (∀ sp2 : Nat, singleRunning.SP < 65536 →
        ∃ m2 m3, switch Variant.fixedTick singleRunning = some m2 ∧
          switch Variant.fixedTick { m2 with SP := sp2 } = some m3 ∧
          m3.current_task = 0 ∧ m3.SP = singleRunning.SP) :=
  ⟨⟨by decide, by decide, by decide⟩,
   C19_single_task Variant.fixedTick singleRunning (by decide) (by decide) (by decide)⟩

/-! ## The saved pointers stay in their regions -/

/-- A switch keeps every saved pointer inside its task's region when the
pointer it captures lies inside the region of the running task. -/
theorem allInside_step (v : Variant) (sizes : List Int) (m m1 : Machine) (sp : Nat)
    (hm : TableOK v m)
    (hall : ∀ j : Nat, j < m.TASKS.length →
      inRegion (m.STACKS.getD j 0) (sizes.getD j 0) (m.STACK_POINTERS.getD j 0))
    (hcap : m.current_task ≠ -1 →
      inRegion (m.STACKS.getD m.current_task.toNat 0) (sizes.getD m.current_task.toNat 0)
        (hx (tsx { m with SP := sp })))
    (r : SwitchRel { m with SP := sp } m1) :
    ∀ j : Nat, j < m1.TASKS.length →
      inRegion (m1.STACKS.getD j 0) (sizes.getD j 0) (m1.STACK_POINTERS.getD j 0) := by
  intro j hj
  have ht : m1.TASKS = m.TASKS := r.tasks_eq
  have hst : m1.STACKS = m.STACKS := r.stacks_eq
  rw [ht] at hj
  have hin := hall j hj
  have htab := r.table_eq
  simp only at htab
  rw [hst]
  by_cases hc : m.current_task = -1
  · rw [if_pos hc] at htab
    rw [htab]; exact hin
  · rw [if_neg hc] at htab
    have hjl : j < m.STACK_POINTERS.length := by rw [hm.2.2.1]; exact hj
    by_cases hjc : j = m.current_task.toNat
    · have hin2 := hcap hc
      rw [← hjc, hx_tsx_eq] at hin2
      have e : m1.STACK_POINTERS.getD j 0 = (sp + 1) % 65536 := by
        rw [htab, ← hjc, List.getD_eq_getElem?_getD, List.getElem?_set_self hjl]
        rfl
      rw [e]; exact hin2
    · have e : m1.STACK_POINTERS.getD j 0 = m.STACK_POINTERS.getD j 0 := by
        rw [htab, List.getD_eq_getElem?_getD, List.getElem?_set_ne (Ne.symm hjc),
          ← List.getD_eq_getElem?_getD]
      rw [e]; exact hin

/-- The registered pointers lie in their regions. -/
theorem registered_inside (m : Machine) (sizes : List Int) (hreg : Registered m sizes) :
    ∀ j : Nat, j < m.TASKS.length →
      inRegion (m.STACKS.getD j 0) (sizes.getD j 0) (m.STACK_POINTERS.getD j 0) := by
  intro j hj
  obtain ⟨h6, hfit, hp⟩ := hreg.2.2 j hj
  rw [hp]
  unfold inRegion ptrAdd
  omega

/-- The invariant along a run. -/
theorem allInside_run (v : Variant) (sizes : List Int) (sps : List Nat) :
    ∀ (m : Machine) (sp : Nat), TableOK v m →
      (∀ j : Nat, j < m.TASKS.length →
        inRegion (m.STACKS.getD j 0) (sizes.getD j 0) (m.STACK_POINTERS.getD j 0)) →
      capturedInside v sizes m (sp :: sps) = true →
      ∃ m1, run v m (sp :: sps) = some m1 ∧ TableOK v m1 ∧ m1.TASKS = m.TASKS ∧
        0 ≤ m1.current_task ∧
        (∀ j : Nat, j < m1.TASKS.length →
          inRegion (m1.STACKS.getD j 0) (sizes.getD j 0) (m1.STACK_POINTERS.getD j 0)) := by
  induction sps with
  | nil =>
    intro m sp hm hall hcap
    obtain ⟨m1, hs, r⟩ := switch_rel v _ (tableOK_setSP hm sp)
    have hm1 := r.tableOK (tableOK_setSP hm sp)
    simp only [capturedInside, hs, Bool.and_true, Bool.or_eq_true, decide_eq_true_eq] at hcap
    refine ⟨m1, by simp only [run, hs], hm1, r.tasks_eq, ?_,
      allInside_step v sizes m m1 sp hm hall (fun hne => hcap.resolve_left hne) r⟩
    rw [r.cur_eq]
    exact (nextIndex_range _ _ hm.1 hm.2.1).1
  | cons s rest ih =>
    intro m sp hm hall hcap
    obtain ⟨m1, hs, r⟩ := switch_rel v _ (tableOK_setSP hm sp)
    have hm1 := r.tableOK (tableOK_setSP hm sp)
    rw [capturedInside] at hcap
    simp only [hs, Bool.and_eq_true, Bool.or_eq_true, decide_eq_true_eq] at hcap
    have hall1 := allInside_step v sizes m m1 sp hm hall
      (fun hne => hcap.1.resolve_left hne) r
    have ht : m1.TASKS = m.TASKS := r.tasks_eq
    obtain ⟨m2, hr, hm2, ht2, h0, hall2⟩ := ih m1 s hm1 hall1 hcap.2
    exact ⟨m2, by rw [run, hs]; exact hr, hm2, ht2.trans ht, h0, hall2⟩

/-- C11: the exactly-one-current invariant. For every variant and every
well-formed table whose tasks are registered with stack sizes of at least 6,
in every run of at least one switch from the sentinel state in which each
pointer captured from a running task lies inside that task's own region: the
run succeeds, after it `current_task` is a task index
(`0 ≤ current_task < N`, not the sentinel), and every other task's saved
pointer lies inside that task's own region. Neither two tasks nor disjoint
regions are needed for this. -/
theorem C11_one_current (v : Variant) (m : Machine) (sizes : List Int) (sps : List Nat)
    (hm : TableOK v m) (_h0 : m.current_task = -1)
    (hreg : Registered m sizes)
    (hk : 1 ≤ sps.length) (hcap : capturedInside v sizes m sps = true) :
    ∃ m1, run v m sps = some m1 ∧
      0 ≤ m1.current_task ∧ m1.current_task < m.TASKS.length ∧ m1.current_task ≠ -1 ∧
      othersInside m1 sizes := by
  cases sps with
  | nil => simp at hk
  | cons sp rest =>
    obtain ⟨m1, hr, hm1, ht, h0, hall⟩ := allInside_run v sizes rest m sp hm
      (registered_inside m sizes hreg) hcap
    refine ⟨m1, hr, h0, by rw [← ht]; exact hm1.2.2.2.2.2, by omega, ?_⟩
    intro j hj _
    exact hall j hj

/-- C11 at a concrete input: three switches of the reference program. -/
theorem C11_one_current_witness :
    (TableOK Variant.fixedTick refRegistered ∧ refRegistered.current_task = -1 ∧
      Registered refRegistered [30, 20] ∧ 1 ≤ [0x00F9, 0x0117, 0x012B].length ∧
      capturedInside Variant.fixedTick [30, 20] refRegistered [0x00F9, 0x0117, 0x012B]
        = true) ∧
    ∃ (m1 : Machine), run Variant.fixedTick refRegistered [0x00F9, 0x0117, 0x012B] = some m1 ∧
      0 ≤ m1.current_task ∧ m1.current_task < refRegistered.TASKS.length ∧
      m1.current_task ≠ -1 ∧ othersInside m1 [30, 20] :=
  ⟨⟨by decide, by decide, by decide, by decide, by decide⟩,
   C11_one_current Variant.fixedTick refRegistered [30, 20] [0x00F9, 0x0117, 0x012B]
     (by decide) (by decide) (by decide) (by decide) (by decide)⟩

/-! ## Weighted fairness -/

/-- A counter that stands on the old compare value reaches the old value plus
a quantum `q`, `0 < q < 2^16`, after exactly `q` ticks. -/
theorem ticksToMatch_quantum (c q : Nat) (h0 : 0 < q) (h1 : q < 65536) :
    ticksToMatch c ((c + q) % 65536) = q := by
  unfold ticksToMatch
  split <;> omega

/-- One timer preemption of the weighted variant. -/
theorem priorityTimerISR_step (m : Machine) (sp : Nat) (hm : TableOK Variant.weighted m) :
    ∃ m1 q, RtosPriority.TimerISR { m with SP := sp } = some m1 ∧
      TableOK Variant.weighted m1 ∧ m1.TASKS = m.TASKS ∧ m1.TIMES = m.TIMES ∧
      m1.current_task = nextIndex m.TASKS.length m.current_task ∧
      readAt m.TIMES m1.current_task = some q ∧
      m1.TPM1C0V = (m.TPM1C0V + q) % 65536 := by
  have hm' : TableOK Variant.weighted
      { m with SP := sp, TPM1C0SC := (m.TPM1C0SC &&& 0xFF7F) % 256 } := hm
  obtain ⟨m1, q, hs, r, hq, ht⟩ := priorityScheduleNext_timer _ hm'
  exact ⟨m1, q, hs, r.tableOK hm', r.tasks_eq, r.times_eq, r.cur_eq, hq, ht⟩

/-- Reading a table entry with `getD`. -/
theorem getD_of_readAt (xs : List Nat) (i : Int) (q : Nat) (h : readAt xs i = some q) :
    0 ≤ i ∧ xs.getD i.toNat 0 = q := by
  unfold readAt at h
  split at h
  · rename_i h0
    refine ⟨h0, ?_⟩
    rw [List.getD_eq_getElem?_getD, h]
    rfl
  · cases h

/-- Every quantum in the table is positive and fits the 16-bit compare
register. -/
theorem quantum_bounds (xs : List Nat) (i : Int) (q : Nat)
    (hq : ∀ x ∈ xs, 0 < x ∧ x < 65536) (h : readAt xs i = some q) :
    0 < q ∧ q < 65536 := by
  unfold readAt at h
  split at h
  · exact hq q (List.getElem?_mem h)
  · cases h

/-- The task switched in at a timer preemption runs for its own quantum. -/
theorem dwell_quanta (sps : List Nat) :
    ∀ (m : Machine), TableOK Variant.weighted m → (∀ x ∈ m.TIMES, 0 < x ∧ x < 65536) →
      sps.length = (dwell m sps).length ∧
      ∀ e ∈ dwell m sps, readAt m.TIMES e.1 = some e.2 := by
  induction sps with
  | nil => intro m _ _; exact ⟨rfl, fun e he => by simp [dwell] at he⟩
  | cons sp rest ih =>
    intro m hm hq
    obtain ⟨m1, q, hs, hm1, _, hti, _, hrd, htm⟩ := priorityTimerISR_step m sp hm
    obtain ⟨hb0, hb1⟩ := quantum_bounds _ _ _ hq hrd
    obtain ⟨ihl, ihe⟩ := ih m1 hm1 (by rw [hti]; exact hq)
    simp only [dwell, hs, List.length_cons, List.mem_cons]
    refine ⟨by rw [ihl], ?_⟩
    intro e he
    rcases he with he | he
    · rw [he, htm, ticksToMatch_quantum _ _ hb0 hb1]
      exact hrd
    · have := ihe e he
      rw [hti] at this
      exact this

/-- The dwell list of a run: the tasks rotate modulo `min N 128` and each
runs for its quantum. -/
theorem dwell_rotation (sps : List Nat) :
    ∀ (m : Machine), TableOK Variant.weighted m → (∀ x ∈ m.TIMES, 0 < x ∧ x < 65536) →
      m.current_task < (min m.TASKS.length 128 : Nat) →
      dwell m sps = (List.range sps.length).map
        (fun (j : Nat) =>
          ((m.current_task + 1 + (j : Int)) % (min m.TASKS.length 128 : Nat),
            m.TIMES.getD ((m.current_task + 1 + (j : Int)) %
              (min m.TASKS.length 128 : Nat)).toNat 0)) := by
  induction sps with
  | nil => intro m _ _ _; rfl
  | cons sp rest ih =>
    intro m hm hq hlt
    obtain ⟨m1, q, hs, hm1, ht, hti, hcur, hrd, htm⟩ := priorityTimerISR_step m sp hm
    obtain ⟨hb0, hb1⟩ := quantum_bounds _ _ _ hq hrd
    have hc : m1.current_task = (m.current_task + 1) % (min m.TASKS.length 128 : Nat) := by
      rw [hcur]
      exact nextIndex_mod _ _ hm.1 hm.2.1 hm.2.2.2.2.1 hlt
    have hpos : (0 : Int) < (min m.TASKS.length 128 : Nat) := by
      have := hm.1
      simp; omega
    have ih1 := ih m1 hm1 (by rw [hti]; exact hq)
      (by rw [ht, hc]; exact Int.emod_lt_of_pos _ hpos)
    have hgd := (getD_of_readAt _ _ _ hrd).2
    simp only [dwell, hs, List.length_cons, List.range_succ_eq_map, List.map_cons,
      List.map_map, ih1, ht, hti, htm, ticksToMatch_quantum _ _ hb0 hb1]
    congr 1
    · rw [← hgd, hc]; simp
    · apply List.map_congr_left
      intro j _
      have e : (m1.current_task + 1 + (j : Int)) % (min m.TASKS.length 128 : Nat)
          = (m.current_task + 1 + ((j + 1 : Nat) : Int)) % (min m.TASKS.length 128 : Nat) := by
        rw [hc, add_assoc, Int.emod_add_emod]
        congr 1
        push_cast
        ring
      simp only [Function.comp, Nat.succ_eq_add_one, e]

/-- Sum of a periodic function over `k` periods. -/
theorem sum_periodic (f : Nat → Nat) (N k : Nat) :
    ((List.range (k * N)).map (fun j => f (j % N))).sum
      = k * ((List.range N).map f).sum := by
  induction k with
  | zero => simp
  | succ k ih =>
    have e : (k + 1) * N = k * N + N := by ring
    rw [e, List.range_add, List.map_append, List.sum_append, ih, List.map_map]
    have : (List.map ((fun j => f (j % N)) ∘ fun x => k * N + x) (List.range N))
        = (List.range N).map f := by
      apply List.map_congr_left
      intro j hj
      have hjN : j < N := List.mem_range.mp hj
      simp only [Function.comp]
      rw [Nat.mul_add_mod_of_lt hjN]
    rw [this]
    ring

/-- Sum of a function that is zero except at `i`. -/
theorem sum_indicator (c : Nat → Nat) (i N : Nat) :
    ((List.range N).map (fun j => if j = i then c j else 0)).sum
      = if i < N then c i else 0 := by
  induction N with
  | zero => simp
  | succ n ih =>
    rw [List.range_succ, List.map_append, List.sum_append, ih]
    by_cases h1 : i < n
    · have : ¬ n = i := by omega
      simp [h1, this, Nat.lt_succ_of_lt h1]
    · by_cases h2 : n = i
      · subst h2; simp
      · have : ¬ i < n + 1 := by omega
        simp [h1, h2, this]

/-- The entries of a table add up to its sum. -/
theorem sum_range_getD (l : List Nat) :
    ((List.range l.length).map (fun j => l.getD j 0)).sum = l.sum := by
  induction l with
  | nil => rfl
  | cons a l ih =>
    rw [List.length_cons, List.range_succ_eq_map, List.map_cons, List.map_map, List.sum_cons,
      List.sum_cons]
    simp only [List.getD_cons_zero, Nat.add_left_cancel_iff]
    rw [← ih]
    rfl

/-- Scheduled ticks as a sum over the dwell list. -/
theorem scheduledTicks_eq_sum (d : List (Int × Nat)) (i : Int) :
    scheduledTicks d i = (d.map (fun e => if e.1 = i then e.2 else 0)).sum := by
  unfold scheduledTicks
  induction d with
  | nil => rfl
  | cons e d ih =>
    by_cases h : e.1 = i
    · simp [List.filter_cons, h, ih]
    · simp [List.filter_cons, h, ih]

/-- Number of times switched in as a sum over the dwell list. -/
theorem timesSwitchedIn_eq_sum (d : List (Int × Nat)) (i : Int) :
    timesSwitchedIn d i = (d.map (fun e => if e.1 = i then 1 else 0)).sum := by
  unfold timesSwitchedIn
  induction d with
  | nil => rfl
  | cons e d ih =>
    by_cases h : e.1 = i
    · simp [List.filter_cons, h, ih]; omega
    · simp [List.filter_cons, h, ih]

/-- A task that runs for `q` ticks each time it is switched in has been
scheduled for `q` times the number of times it was switched in. -/
theorem scheduledTicks_eq_mul (d : List (Int × Nat)) (i : Int) (q : Nat)
    (h : ∀ e ∈ d, e.1 = i → e.2 = q) :
    scheduledTicks d i = timesSwitchedIn d i * q := by
  unfold scheduledTicks timesSwitchedIn
  induction d with
  | nil => simp
  | cons e d ih =>
    have ih' := ih (fun x hx => h x (List.mem_cons_of_mem _ hx))
    by_cases he : e.1 = i
    · have := h e (List.mem_cons_self _ _) he
      simp [List.filter_cons, he, ih', this]
      ring
    · simp [List.filter_cons, he, ih']

/-- From the sentinel state with at most 128 tasks, the dwell list of a run
is periodic with period `N`. -/
theorem dwell_from_sentinel (m : Machine) (sps : List Nat)
    (hm : TableOK Variant.weighted m) (hq : ∀ x ∈ m.TIMES, 0 < x ∧ x < 65536)
    (h0 : m.current_task = -1) (hN : m.TASKS.length ≤ 128) :
    dwell m sps = (List.range sps.length).map
      (fun (j : Nat) => (((j % m.TASKS.length : Nat) : Int),
        m.TIMES.getD (j % m.TASKS.length) 0)) := by
  have hmin : min m.TASKS.length 128 = m.TASKS.length := Nat.min_eq_left hN
  have hlt : m.current_task < (min m.TASKS.length 128 : Nat) := by
    have := hm.1
    rw [h0, hmin]; omega
  rw [dwell_rotation sps m hm hq hlt, h0, hmin]
  apply List.map_congr_left
  intro j _
  have e : ((-1 : Int) + 1 + (j : Int)) % ((m.TASKS.length : Nat) : Int)
      = ((j % m.TASKS.length : Nat) : Int) := by
    push_cast
    congr 1
    ring
  rw [e]
  rfl

/-- The ticks of a run are the ticks of its tasks, when every entry is for a
task index below `N`. -/
theorem totalTicks_partition (N : Nat) (d : List (Int × Nat))
    (h : ∀ e ∈ d, 0 ≤ e.1 ∧ e.1 < N) :
    totalTicks d = ((List.range N).map (fun (i : Nat) => scheduledTicks d (i : Int))).sum := by
  induction d with
  | nil => simp [totalTicks, scheduledTicks]
  | cons e d ih =>
    have ih' := ih (fun x hx => h x (List.mem_cons_of_mem _ hx))
    obtain ⟨h0, h1⟩ := h e (List.mem_cons_self _ _)
    have hstep : ∀ i : Nat, scheduledTicks (e :: d) (i : Int)
        = (if i = e.1.toNat then e.2 else 0) + scheduledTicks d (i : Int) := by
      intro i
      rw [scheduledTicks_eq_sum, scheduledTicks_eq_sum, List.map_cons, List.sum_cons]
      congr 1
      by_cases hi : e.1 = (i : Int)
      · have hn : i = e.1.toNat := by omega
        rw [if_pos hi, if_pos hn]
      · have hn : ¬ i = e.1.toNat := by omega
        rw [if_neg hi, if_neg hn]
    have hfun : (fun (i : Nat) => scheduledTicks (e :: d) (i : Int))
        = (fun (i : Nat) => (if i = e.1.toNat then e.2 else 0) + scheduledTicks d (i : Int)) :=
      funext hstep
    rw [hfun, List.sum_map_add, sum_indicator (fun _ => e.2) e.1.toNat N,
      if_pos (by omega), ← ih']
    simp [totalTicks]

/-- C13: weighted fairness. In a run of timer preemptions of the weighted
variant, each taken when the counter reaches the programmed compare value,
with well-formed tables and quanta `0 < q < 2^16`: (1) the task switched in
at a switch runs exactly its own quantum until the next switch; (2) hence a
task has been scheduled for its quantum times the number of times it was
switched in; (3) after `k` complete rotations, that is when every task has
been switched in `k` times, task `i` has been scheduled for `k * q_i` ticks
out of `k * (q_0 + … + q_{N-1})`, a share of `q_i / Σ q` in ticks, whatever
the duration of a tick; (4) with at most 128 tasks a run of `k * N` switches
from the sentinel state is `k` complete rotations. -/
theorem C13_weighted_fairness (m : Machine) (sps : List Nat)
    (hm : TableOK Variant.weighted m) (hq : ∀ x ∈ m.TIMES, 0 < x ∧ x < 65536) :
    (dwell m sps).length = sps.length ∧
    (∀ e ∈ dwell m sps, readAt m.TIMES e.1 = some e.2) ∧
    (∀ (i q : Nat), m.TIMES[i]? = some q →
      scheduledTicks (dwell m sps) i = timesSwitchedIn (dwell m sps) i * q) ∧
    (∀ k : Nat, (∀ i : Nat, i < m.TASKS.length → timesSwitchedIn (dwell m sps) i = k) →
      totalTicks (dwell m sps) = k * m.TIMES.sum ∧
      ∀ (i q : Nat), m.TIMES[i]? = some q →
        scheduledTicks (dwell m sps) i = k * q ∧
        scheduledTicks (dwell m sps) i * m.TIMES.sum = q * totalTicks (dwell m sps)) ∧
    (∀ k : Nat, m.current_task = -1 → m.TASKS.length ≤ 128 →
      sps.length = k * m.TASKS.length →
      ∀ i : Nat, i < m.TASKS.length → timesSwitchedIn (dwell m sps) i = k) := by
  obtain ⟨hl, he⟩ := dwell_quanta sps m hm hq
  have htl : m.TIMES.length = m.TASKS.length := hm.2.2.2.1 rfl
  have h2 : ∀ (i q : Nat), m.TIMES[i]? = some q →
      scheduledTicks (dwell m sps) i = timesSwitchedIn (dwell m sps) i * q := by
    intro i q hi
    apply scheduledTicks_eq_mul
    intro e hmem hei
    have := he e hmem
    rw [hei] at this
    have h' : readAt m.TIMES (i : Int) = some q := by simp [readAt, hi]
    rw [h'] at this
    exact (Option.some.inj this).symm
  refine ⟨hl.symm, he, h2, ?_, ?_⟩
  · intro k hk
    have hrange : ∀ e ∈ dwell m sps, 0 ≤ e.1 ∧ e.1 < m.TASKS.length := by
      intro e hmem
      have hr := he e hmem
      unfold readAt at hr
      split at hr
      · rename_i h0
        have := (List.getElem?_eq_some_iff.mp hr).1
        omega
      · cases hr
    have hsched : ∀ i : Nat, i < m.TASKS.length →
        scheduledTicks (dwell m sps) (i : Int) = k * m.TIMES.getD i 0 := by
      intro i hi
      have hi' : m.TIMES[i]? = some (m.TIMES.getD i 0) := by
        rw [List.getD_eq_getElem?_getD, List.getElem?_eq_getElem (by omega)]
        rfl
      rw [h2 i _ hi', hk i hi]
    have htot : totalTicks (dwell m sps) = k * m.TIMES.sum := by
      rw [totalTicks_partition m.TASKS.length _ hrange]
      have : (List.range m.TASKS.length).map
            (fun (i : Nat) => scheduledTicks (dwell m sps) (i : Int))
          = (List.range m.TASKS.length).map (fun (i : Nat) => k * m.TIMES.getD i 0) := by
        apply List.map_congr_left
        intro i hi
        exact hsched i (List.mem_range.mp hi)
      rw [this, List.sum_map_mul_left, ← htl, sum_range_getD]
    refine ⟨htot, ?_⟩
    intro i q hi
    have hiN : i < m.TASKS.length := by
      rw [← htl]
      exact (List.getElem?_eq_some_iff.mp hi).1
    have hs := h2 i q hi
    rw [hk i hiN] at hs
    refine ⟨hs, ?_⟩
    rw [hs, htot]
    ring
  · intro k h0 hN hlen i hiN
    have hd := dwell_from_sentinel m sps hm hq h0 hN
    rw [hlen] at hd
    rw [timesSwitchedIn_eq_sum, hd, List.map_map]
    have hp := sum_periodic (fun j => if j = i then 1 else 0) m.TASKS.length k
    rw [sum_indicator (fun _ => 1) i m.TASKS.length, if_pos hiN, Nat.mul_one] at hp
    refine Eq.trans ?_ hp
    congr 1
    apply List.map_congr_left
    intro j _
    simp only [Function.comp, Nat.cast_inj]

/-- C13 at a concrete input: two rotations of the weighted reference program,
with the quanta 200 and 1000. -/
theorem C13_weighted_fairness_witness :
    (TableOK Variant.weighted priorityRegistered ∧
      ∀ x ∈ priorityRegistered.TIMES, 0 < x ∧ x < 65536) ∧
    ((dwell priorityRegistered [0x00F9, 0x0117, 0x012B, 0x0117]).length
      = [0x00F9, 0x0117, 0x012B, 0x0117].length ∧
    (∀ e ∈ dwell priorityRegistered [0x00F9, 0x0117, 0x012B, 0x0117],
      readAt priorityRegistered.TIMES e.1 = some e.2) ∧
    (∀ (i q : Nat), priorityRegistered.TIMES[i]? = some q →
      scheduledTicks (dwell priorityRegistered [0x00F9, 0x0117, 0x012B, 0x0117]) i
        = timesSwitchedIn (dwell priorityRegistered [0x00F9, 0x0117, 0x012B, 0x0117]) i * q) ∧
    (∀ k : Nat, (∀ i : Nat, i < priorityRegistered.TASKS.length →
        timesSwitchedIn (dwell priorityRegistered [0x00F9, 0x0117, 0x012B, 0x0117]) i = k) →
      totalTicks (dwell priorityRegistered [0x00F9, 0x0117, 0x012B, 0x0117])
        = k * priorityRegistered.TIMES.sum ∧
      ∀ (i q : Nat), priorityRegistered.TIMES[i]? = some q →
        scheduledTicks (dwell priorityRegistered [0x00F9, 0x0117, 0x012B, 0x0117]) i = k * q ∧
        scheduledTicks (dwell priorityRegistered [0x00F9, 0x0117, 0x012B, 0x0117]) i
            * priorityRegistered.TIMES.sum
          = q * totalTicks (dwell priorityRegistered [0x00F9, 0x0117, 0x012B, 0x0117])) ∧
    (∀ k : Nat, priorityRegistered.current_task = -1 →
      priorityRegistered.TASKS.length ≤ 128 →
      [0x00F9, 0x0117, 0x012B, 0x0117].length = k * priorityRegistered.TASKS.length →
      ∀ i : Nat, i < priorityRegistered.TASKS.length →
        timesSwitchedIn (dwell priorityRegistered [0x00F9, 0x0117, 0x012B, 0x0117]) i = k)) :=
  ⟨⟨by decide, by decide⟩,
   C13_weighted_fairness priorityRegistered [0x00F9, 0x0117, 0x012B, 0x0117]
     (by decide) (by decide)⟩

/-! ## The frame of a voluntary yield -/

/-- What a push changes: one byte of RAM and the stack pointer. -/
theorem push_fields (m : Machine) (b : Nat) :
    (push m b).mem = store m.mem m.SP b ∧ (push m b).SP = (m.SP + 65535) % 65536 ∧
    (push m b).A = m.A ∧ (push m b).H = m.H ∧ (push m b).X = m.X ∧
    (push m b).CCR = m.CCR := by
  unfold push
  exact ⟨rfl, rfl, rfl, rfl, rfl, rfl⟩

/-- A push leaves the kernel tables alone. -/
theorem push_tables (m : Machine) (b : Nat) :
    (push m b).TASKS = m.TASKS ∧ (push m b).STACK_POINTERS = m.STACK_POINTERS ∧
    (push m b).TIMES = m.TIMES ∧ (push m b).current_task = m.current_task := by
  unfold push
  exact ⟨rfl, rfl, rfl, rfl⟩

/-- What `tpa` changes: the accumulator. -/
theorem tpa_fields (m : Machine) :
    (tpa m).mem = m.mem ∧ (tpa m).SP = m.SP ∧ (tpa m).A = m.CCR ∧ (tpa m).H = m.H ∧
    (tpa m).X = m.X ∧ (tpa m).CCR = m.CCR := by
  unfold tpa
  exact ⟨rfl, rfl, rfl, rfl, rfl, rfl⟩

/-- Instruction `tpa` leaves the kernel tables alone. -/
theorem tpa_tables (m : Machine) :
    (tpa m).TASKS = m.TASKS ∧ (tpa m).STACK_POINTERS = m.STACK_POINTERS ∧
    (tpa m).TIMES = m.TIMES ∧ (tpa m).current_task = m.current_task := by
  unfold tpa
  exact ⟨rfl, rfl, rfl, rfl⟩

/-- The interrupt entry changes RAM and the stack pointer like its five
pushes and leaves `H` alone. -/
theorem interruptEntry_fields (m : Machine) :
    (interruptEntry m).mem
      = (push (push (push (push (push m (m.PC % 256)) (m.PC / 256 % 256)) m.X) m.A) m.CCR).mem ∧
    (interruptEntry m).SP
      = (push (push (push (push (push m (m.PC % 256)) (m.PC / 256 % 256)) m.X) m.A) m.CCR).SP ∧
    (interruptEntry m).H = m.H := by
  refine ⟨?_, ?_, ?_⟩
  · unfold interruptEntry
    rfl
  · unfold interruptEntry
    rfl
  · unfold interruptEntry push
    rfl

/-- The frame synthesis of `WaitNext` after the `jsr` of its call, field by
field: six nested stores and the stack pointer six bytes down. -/
theorem yieldFrame_fields (m : Machine) (ret : Nat) :
    (RtosPriority.yieldFrame (jsr m ret)).mem =
      store (store (store (store (store (store m.mem m.SP (ret % 256))
        ((m.SP + 65535) % 65536) (ret / 256 % 256))
        (((m.SP + 65535) % 65536 + 65535) % 65536) m.X)
        ((((m.SP + 65535) % 65536 + 65535) % 65536 + 65535) % 65536) m.A)
        (((((m.SP + 65535) % 65536 + 65535) % 65536 + 65535) % 65536 + 65535) % 65536) m.CCR)
        ((((((m.SP + 65535) % 65536 + 65535) % 65536 + 65535) % 65536 + 65535) % 65536
          + 65535) % 65536) m.H ∧
    (RtosPriority.yieldFrame (jsr m ret)).SP =
      (((((((m.SP + 65535) % 65536 + 65535) % 65536 + 65535) % 65536 + 65535) % 65536
          + 65535) % 65536) + 65535) % 65536 ∧
    (RtosPriority.yieldFrame (jsr m ret)).CCR = m.CCR := by
  simp only [RtosPriority.yieldFrame, jsr, pshh, psha, pshx, push_fields, tpa_fields,
    and_self]

/-- The frame of a timer preemption at `ret`, after the handler's `pshh`:
the same six stores and the same stack pointer. -/
theorem interruptFrame_fields (m : Machine) (ret : Nat) :
    (pshh (interruptEntry { m with PC := ret })).mem =
      store (store (store (store (store (store m.mem m.SP (ret % 256))
        ((m.SP + 65535) % 65536) (ret / 256 % 256))
        (((m.SP + 65535) % 65536 + 65535) % 65536) m.X)
        ((((m.SP + 65535) % 65536 + 65535) % 65536 + 65535) % 65536) m.A)
        (((((m.SP + 65535) % 65536 + 65535) % 65536 + 65535) % 65536 + 65535) % 65536) m.CCR)
        ((((((m.SP + 65535) % 65536 + 65535) % 65536 + 65535) % 65536 + 65535) % 65536
          + 65535) % 65536) m.H ∧
    (pshh (interruptEntry { m with PC := ret })).SP =
      (((((((m.SP + 65535) % 65536 + 65535) % 65536 + 65535) % 65536 + 65535) % 65536
          + 65535) % 65536) + 65535) % 65536 := by
  simp only [pshh, push_fields, interruptEntry_fields, and_self]

/-- The frame synthesis leaves the kernel tables alone. -/
theorem yieldFrame_tables (m : Machine) (ret : Nat) :
    (RtosPriority.yieldFrame (jsr m ret)).TASKS = m.TASKS ∧
    (RtosPriority.yieldFrame (jsr m ret)).STACK_POINTERS = m.STACK_POINTERS ∧
    (RtosPriority.yieldFrame (jsr m ret)).TIMES = m.TIMES ∧
    (RtosPriority.yieldFrame (jsr m ret)).current_task = m.current_task := by
  simp only [RtosPriority.yieldFrame, jsr, pshh, psha, pshx, push_tables, tpa_tables,
    and_self]

/-- The frame `WaitNext` leaves after the `jsr` of its call: six bytes below
the stack pointer of the caller. -/
theorem yieldFrame_layout (m : Machine) (ret : Nat) (h6 : 6 ≤ m.SP) (h16 : m.SP < 65536) :
    (RtosPriority.yieldFrame (jsr m ret)).SP = m.SP - 6 ∧
    (RtosPriority.yieldFrame (jsr m ret)).mem m.SP = ret % 256 ∧
    (RtosPriority.yieldFrame (jsr m ret)).mem (m.SP - 1) = ret / 256 % 256 ∧
    (RtosPriority.yieldFrame (jsr m ret)).mem (m.SP - 2) = m.X ∧
    (RtosPriority.yieldFrame (jsr m ret)).mem (m.SP - 3) = m.A ∧
    (RtosPriority.yieldFrame (jsr m ret)).mem (m.SP - 4) = m.CCR ∧
    (RtosPriority.yieldFrame (jsr m ret)).mem (m.SP - 5) = m.H := by
  have d1 : (m.SP + 65535) % 65536 = m.SP - 1 := by omega
  have d2 : (m.SP - 1 + 65535) % 65536 = m.SP - 2 := by omega
  have d3 : (m.SP - 2 + 65535) % 65536 = m.SP - 3 := by omega
  have d4 : (m.SP - 3 + 65535) % 65536 = m.SP - 4 := by omega
  have d5 : (m.SP - 4 + 65535) % 65536 = m.SP - 5 := by omega
  have d6 : (m.SP - 5 + 65535) % 65536 = m.SP - 6 := by omega
  obtain ⟨hmem, hsp, -⟩ := yieldFrame_fields m ret
  rw [hmem, hsp]
  simp only [store, d1, d2, d3, d4, d5, d6]
  refine ⟨trivial, ?_, ?_, ?_, ?_, ?_, ?_⟩ <;> simp <;>
    first
      | (intro h; omega)
      | (repeat rw [if_neg (by omega)])

/-- Well-formedness is not touched by the frame synthesis. -/
theorem tableOK_yieldFrame {v : Variant} {m : Machine} (ret : Nat) (h : TableOK v m) :
    TableOK v (RtosPriority.yieldFrame (jsr m ret)) := by
  obtain ⟨t1, t2, t3, t4⟩ := yieldFrame_tables m ret
  unfold TableOK at h ⊢
  rw [t1, t2, t3, t4]
  exact h

/-- `ScheduleNext` on the yield frame stores the pointer to the frame,
`SP - 5`, as the saved pointer of the yielding task and leaves RAM alone. -/
theorem yield_switch (v : Variant) (m m2 : Machine) (ret : Nat) (h6 : 6 ≤ m.SP)
    (h16 : m.SP < 65536) (hm : TableOK v m) (hc : m.current_task ≠ -1)
    (r : SwitchRel (RtosPriority.yieldFrame (jsr m ret)) m2) :
    m2.STACK_POINTERS[m.current_task.toNat]? = some (m.SP - 5) ∧
    m2.mem = (RtosPriority.yieldFrame (jsr m ret)).mem ∧
    m2.current_task = nextIndex m.TASKS.length m.current_task := by
  have hsp := (yieldFrame_layout m ret h6 h16).1
  obtain ⟨t1, t2, -, t4⟩ := yieldFrame_tables m ret
  have ht := r.table_eq
  rw [t4, if_neg hc, hsp, t2] at ht
  have hlt : m.current_task.toNat < m.STACK_POINTERS.length := by
    have h1 := hm.2.2.1
    have h2 := hm.2.2.2.2
    omega
  have hce := r.cur_eq
  rw [t1, t4] at hce
  refine ⟨?_, r.mem_eq, hce⟩
  have e : (m.SP - 6 + 1) % 65536 = m.SP - 5 := by omega
  rw [ht, List.getElem?_set_self hlt, e]

/-- C14: the frame of a voluntary yield. For a task that calls `WaitNext`
with return address `ret` and at least six free bytes below its stack
pointer: the frame `jsr`, `pshx`, `psha`, `tpa`, `psha`, `pshh` leave is byte
for byte the frame of a timer preemption at `ret` (hardware-pushed `PCL`,
`PCH`, `X`, `A`, `CCR`, then the handler's `pshh`), with the same stack
pointer; `WaitNext` of either file succeeds on well-formed tables and stores
the pointer to this frame, `SP - 5`, as the saved pointer of the yielding
task; and resuming from that saved pointer through `ldhx`, `txs`, `pulh`,
`rti`, with the six frame bytes untouched in between, continues at `ret` with
`A`, `X`, `H`, `CCR` as they were at the call and the stack pointer back
where it was before the call. -/
theorem C14_yield_frame (m : Machine) (ret : Nat) (h6 : 6 ≤ m.SP) (h16 : m.SP < 65536)
    (hret : ret < 65536) :
    (pshh (interruptEntry { m with PC := ret })).mem
      = (RtosPriority.yieldFrame (jsr m ret)).mem ∧
    (pshh (interruptEntry { m with PC := ret })).SP
      = (RtosPriority.yieldFrame (jsr m ret)).SP ∧
    RtosRti.yieldFrame (jsr m ret) = RtosPriority.yieldFrame (jsr m ret) ∧
    (TableOK Variant.weighted m → m.current_task ≠ -1 →
      ∃ mw, RtosPriority.WaitNext (jsr m ret) = some mw ∧
        mw.STACK_POINTERS[m.current_task.toNat]? = some (m.SP - 5) ∧
        mw.mem = (RtosPriority.yieldFrame (jsr m ret)).mem ∧
        mw.current_task = nextIndex m.TASKS.length m.current_task) ∧
    (TableOK Variant.lowPower m → m.current_task ≠ -1 →
      ∃ mw, RtosRti.WaitNext (jsr m ret) = some mw ∧
        mw.STACK_POINTERS[m.current_task.toNat]? = some (m.SP - 5) ∧
        mw.mem = (RtosRti.yieldFrame (jsr m ret)).mem ∧
        mw.current_task = nextIndex m.TASKS.length m.current_task) ∧
    (∀ m3 : Machine,
      (∀ a, m.SP - 5 ≤ a → a ≤ m.SP →
        m3.mem a = (RtosPriority.yieldFrame (jsr m ret)).mem a) →
      (rti (pulh (txs (ldhx m3 (m.SP - 5))))).PC = ret ∧
      (rti (pulh (txs (ldhx m3 (m.SP - 5))))).A = m.A ∧
      (rti (pulh (txs (ldhx m3 (m.SP - 5))))).X = m.X ∧
      (rti (pulh (txs (ldhx m3 (m.SP - 5))))).H = m.H ∧
      (rti (pulh (txs (ldhx m3 (m.SP - 5))))).CCR = m.CCR ∧
      (rti (pulh (txs (ldhx m3 (m.SP - 5))))).SP = m.SP) := by
  obtain ⟨y1, y2, -⟩ := yieldFrame_fields m ret
  obtain ⟨i1, i2⟩ := interruptFrame_fields m ret
  refine ⟨by rw [y1, i1], by rw [y2, i2], rfl, ?_, ?_, ?_⟩
  · intro hm hc
    obtain ⟨m2, hs, r⟩ := switch_rel Variant.weighted (RtosPriority.yieldFrame (jsr m ret))
      (tableOK_yieldFrame ret hm)
    obtain ⟨a1, a2, a3⟩ := yield_switch Variant.weighted m m2 ret h6 h16 hm hc r
    have hs2 : RtosPriority.ScheduleNext (RtosPriority.yieldFrame (jsr m ret)) = some m2 := hs
    exact ⟨rti (pulh m2), by simp only [RtosPriority.WaitNext, hs2], a1, a2, a3⟩
  · intro hm hc
    obtain ⟨m2, hs, r⟩ := switch_rel Variant.lowPower (RtosPriority.yieldFrame (jsr m ret))
      (tableOK_yieldFrame ret hm)
    obtain ⟨a1, a2, a3⟩ := yield_switch Variant.lowPower m m2 ret h6 h16 hm hc r
    have hs2 : RtosRti.ScheduleNext (RtosRti.yieldFrame (jsr m ret)) = some m2 := hs
    exact ⟨rti (pulh m2), by simp only [RtosRti.WaitNext, hs2], a1, a2, a3⟩
  · intro m3 hagree
    obtain ⟨-, l0, l1, l2, l3, l4, l5⟩ := yieldFrame_layout m ret h6 h16
    obtain ⟨i1, i2⟩ := install_sp m3 (m.SP - 5)
    obtain ⟨r1, r2, r3, r4, r5, r6⟩ :=
      return_path (txs (ldhx m3 (m.SP - 5))) (m.SP - 5) i1 (by omega)
    rw [i2] at r2 r3 r4 r5 r6
    have e5 : m.SP - 5 + 5 = m.SP := by omega
    have e4 : m.SP - 5 + 4 = m.SP - 1 := by omega
    have e3 : m.SP - 5 + 3 = m.SP - 2 := by omega
    have e2 : m.SP - 5 + 2 = m.SP - 3 := by omega
    have e1 : m.SP - 5 + 1 = m.SP - 4 := by omega
    rw [e4, e5] at r2
    rw [e1] at r4
    rw [e2] at r5
    rw [e3] at r6
    rw [e5] at r1
    refine ⟨?_, ?_, ?_, ?_, ?_, r1⟩
    · rw [r2, hagree _ (by omega) (by omega), hagree _ (by omega) (by omega), l0, l1]
      omega
    · rw [r5, hagree _ (by omega) (by omega), l3]
    · rw [r6, hagree _ (by omega) (by omega), l2]
    · rw [r3, hagree _ (by omega) (by omega), l5]
    · rw [r4, hagree _ (by omega) (by omega), l4]

/-- C14 at a concrete input: `function2` of the weighted reference program
calls `WaitNext` from `0x8040`, returning to `0x8043`. -/
theorem C14_yield_frame_witness :
    (6 ≤ refYielding.SP ∧ refYielding.SP < 65536 ∧ 0x8043 < 65536) ∧
    ((pshh (interruptEntry { refYielding with PC := 0x8043 })).mem
      = (RtosPriority.yieldFrame (jsr refYielding 0x8043)).mem ∧
    (pshh (interruptEntry { refYielding with PC := 0x8043 })).SP
      = (RtosPriority.yieldFrame (jsr refYielding 0x8043)).SP ∧
    RtosRti.yieldFrame (jsr refYielding 0x8043)
      = RtosPriority.yieldFrame (jsr refYielding 0x8043) ∧
    (TableOK Variant.weighted refYielding → refYielding.current_task ≠ -1 →
      ∃ mw, RtosPriority.WaitNext (jsr refYielding 0x8043) = some mw ∧
        mw.STACK_POINTERS[refYielding.current_task.toNat]? = some (refYielding.SP - 5) ∧
        mw.mem = (RtosPriority.yieldFrame (jsr refYielding 0x8043)).mem ∧
        mw.current_task = nextIndex refYielding.TASKS.length refYielding.current_task) ∧
    (TableOK Variant.lowPower refYielding → refYielding.current_task ≠ -1 →
      ∃ mw, RtosRti.WaitNext (jsr refYielding 0x8043) = some mw ∧
        mw.STACK_POINTERS[refYielding.current_task.toNat]? = some (refYielding.SP - 5) ∧
        mw.mem = (RtosRti.yieldFrame (jsr refYielding 0x8043)).mem ∧
        mw.current_task = nextIndex refYielding.TASKS.length refYielding.current_task) ∧
    (∀ m3 : Machine,
      (∀ a, refYielding.SP - 5 ≤ a → a ≤ refYielding.SP →
        m3.mem a = (RtosPriority.yieldFrame (jsr refYielding 0x8043)).mem a) →
      (rti (pulh (txs (ldhx m3 (refYielding.SP - 5))))).PC = 0x8043 ∧
      (rti (pulh (txs (ldhx m3 (refYielding.SP - 5))))).A = refYielding.A ∧
      (rti (pulh (txs (ldhx m3 (refYielding.SP - 5))))).X = refYielding.X ∧
      (rti (pulh (txs (ldhx m3 (refYielding.SP - 5))))).H = refYielding.H ∧
      (rti (pulh (txs (ldhx m3 (refYielding.SP - 5))))).CCR = refYielding.CCR ∧
      (rti (pulh (txs (ldhx m3 (refYielding.SP - 5))))).SP = refYielding.SP)) :=
  ⟨⟨by decide, by decide, by decide⟩,
   C14_yield_frame refYielding 0x8043 (by decide) (by decide) (by decide)⟩

/-! ## The interrupt mask during a voluntary yield -/

/-- C15 fails on the code: `WaitNext` has no instruction that sets the
interrupt mask. When `function2` of the weighted reference program calls it
with interrupts enabled (bit 3 of `CCR` clear), the mask is clear after the
`jsr`, after each of `pshx`, `psha`, `tpa`, `psha`, `pshh`, and still clear
when `ScheduleNext` has installed the next stack pointer. -/
theorem C15_mask_clear_during_yield :
    refYielding.current_task = 1 ∧
    refYielding.CCR &&& 0x08 = 0 ∧
    (jsr refYielding 0x8043).CCR &&& 0x08 = 0 ∧
    (pshx (jsr refYielding 0x8043)).CCR &&& 0x08 = 0 ∧
    (psha (pshx (jsr refYielding 0x8043))).CCR &&& 0x08 = 0 ∧
    (tpa (psha (pshx (jsr refYielding 0x8043)))).CCR &&& 0x08 = 0 ∧
    (psha (tpa (psha (pshx (jsr refYielding 0x8043))))).CCR &&& 0x08 = 0 ∧
    (RtosPriority.yieldFrame (jsr refYielding 0x8043)).CCR &&& 0x08 = 0 ∧
    (RtosPriority.ScheduleNext (RtosPriority.yieldFrame (jsr refYielding 0x8043))).map
      (fun m2 => (m2.current_task, m2.CCR &&& 0x08)) = some (0, 0) := by
  decide

/-! ## `WaitNext` of the low-power variant -/

/-- C16 fails on the code: `WaitNext` of `rtos_rti.c` executes no `STOP`; it
switches at once. When `function1` (task 0) calls it, `WaitNext` returns into
task 1: `current_task` is 1, the program counter is the entry `0x8040` of
`function2` and the stack pointer is on the stack of task 1, with no
interrupt taken. -/
theorem C16_waitNext_switches_at_once :
    rtiRunning.current_task = 0 ∧ rtiRunning.PC = 0x8000 ∧ rtiRunning.SP = 0x0109 ∧
    (RtosRti.WaitNext (jsr rtiRunning 0x8003)).map
      (fun mw => (mw.current_task, mw.PC, mw.SP)) = some (1, 0x8040, 0x010F) := by
  decide

end HC08RTOS
